import Mathlib

/-!
# Finsliparn — shallow embedding and verification

A shallow embedding of the orchestration and evaluation core of the
`finsliparn` repository (a test-validated iterative refinement orchestrator),
together with theorems settling the specification claims.

Each definition is translated from the TypeScript source file named in its
doc comment.  JavaScript numbers are modelled as `ℚ`/`ℤ`/`ℕ` as appropriate;
`Math.round` is modelled by `jsRound` (round half towards positive infinity,
which is JavaScript's behaviour).  Effectful operations (filesystem, git,
session persistence) are modelled by explicit state parameters and by event
traces.
-/

namespace Finsliparn

/-- JavaScript `Math.round`: rounds half away from zero towards +∞,
i.e. `Math.round x = ⌊x + 0.5⌋` for all finite `x`. -/
def jsRound (q : ℚ) : ℤ := ⌊q + 1/2⌋

/-! ## Test results (src/types, test-runner.ts) -/

/-- One failing test (src/types `TestFailure`). -/
structure TestFailure where
  name : String
  file : String
  line : Option Nat := none
  message : String := ""
  expected : Option String := none
  actual : Option String := none
  softScore : Option ℚ := none
deriving DecidableEq

/-- Result of one test run (src/types `TestResults`).  The Bun runner
(`test-runner.ts`, `parseOutput`) always constructs
`total = passed + failed`. -/
structure TestResults where
  framework : String
  passed : Nat
  failed : Nat
  total : Nat
  duration : ℚ
  failures : List TestFailure
  softScore : Option ℚ := none
deriving DecidableEq

/-- The final struct assembly of `BunTestRunner.parseOutput`
(test-runner.ts lines 208–215): whatever the summary parsing produced,
`total` is defined as `passed + failed`. -/
def parseOutputResults (passed failed : Nat) (duration : ℚ)
    (failures : List TestFailure) : TestResults :=
  { framework := "bun", passed := passed, failed := failed,
    total := passed + failed, duration := duration, failures := failures }

/-! ## Diff analysis (diff-analyzer.ts) -/

/-- Three-level complexity classification. -/
inductive Complexity
  | low
  | medium
  | high
deriving DecidableEq

/-- `DiffAnalysis` (src/types). -/
structure DiffAnalysis where
  filesChanged : List String
  insertions : Nat
  deletions : Nat
  complexity : Complexity
  complexityScore : ℤ
deriving DecidableEq

/-- Thresholds of `DiffAnalyzer` (diff-analyzer.ts lines 19–22). -/
def lowComplexityThreshold : Nat := 50

/-- Medium complexity threshold (diff-analyzer.ts line 21). -/
def mediumComplexityThreshold : Nat := 150

/-- `DiffAnalyzer.calculateComplexity` (diff-analyzer.ts lines 125–140):
total changed lines plus a spread penalty of 10 per file beyond the fifth,
classified against the 50/150 thresholds. -/
def calculateComplexity (totalChanges fileCount : Nat) : Complexity :=
  let changeScore := totalChanges
  let spreadPenalty := if 5 < fileCount then (fileCount - 5) * 10 else 0
  let score := changeScore + spreadPenalty
  if score ≤ lowComplexityThreshold then .low
  else if score ≤ mediumComplexityThreshold then .medium
  else .high

/-- `DiffAnalyzer.calculateComplexityScore` (diff-analyzer.ts lines 142–149):
`round(min(totalChanges,500) × 0.15 + min(fileCount × 5, 50))`. -/
def calculateComplexityScore (totalChanges fileCount : Nat) : ℤ :=
  let changeScore := min totalChanges 500
  let spreadPenalty := min (fileCount * 5) 50
  jsRound ((changeScore : ℚ) * (15/100) + (spreadPenalty : ℚ))

/-- One parsed numstat line (diff-analyzer.ts `DiffHunk`). -/
structure DiffHunk where
  file : String
  insertions : Nat
  deletions : Nat
deriving DecidableEq

/-- Metric assembly of `DiffAnalyzer.analyze` (diff-analyzer.ts lines 28–52),
applied to the already-parsed (and already-filtered) hunks. -/
def analyzeHunks (hunks : List DiffHunk) : DiffAnalysis :=
  let filesChanged := hunks.map (·.file)
  let insertions := (hunks.map (·.insertions)).sum
  let deletions := (hunks.map (·.deletions)).sum
  let totalChanges := insertions + deletions
  { filesChanged := filesChanged
    insertions := insertions
    deletions := deletions
    complexity := calculateComplexity totalChanges filesChanged.length
    complexityScore := calculateComplexityScore totalChanges filesChanged.length }

/-! ## Scoring engine (scoring-engine.ts) -/

/-- `ScoreWeights` (src/types). -/
structure ScoreWeights where
  testPass : ℚ
  complexityPenalty : ℚ
deriving DecidableEq

/-- `DEFAULT_WEIGHTS` (scoring-engine.ts lines 9–12). -/
def DEFAULT_WEIGHTS : ScoreWeights := { testPass := 1, complexityPenalty := 1/10 }

/-- One recorded deduction (src/types `ScorePenalty`). -/
structure ScorePenalty where
  reason : String
  deduction : ℤ
  details : String
deriving DecidableEq

/-- `ScoreBreakdown` (src/types). -/
structure ScoreBreakdown where
  base : ℤ
  testPassRate : ℚ
  penalties : List ScorePenalty
  final : ℤ
deriving DecidableEq

/-- `ScoreResult` (scoring-engine.ts lines 14–18). -/
structure ScoreResult where
  score : ℤ
  passRate : ℚ
  breakdown : ScoreBreakdown
deriving DecidableEq

/-- `ScoringEngine.calculatePassRate` (scoring-engine.ts lines 27–32). -/
def calculatePassRate (testResults : TestResults) : ℚ :=
  if testResults.total = 0 then 0
  else ((testResults.passed : ℚ) / (testResults.total : ℚ)) * 100

/-- `ScoringEngine.calculateScore` (scoring-engine.ts lines 34–81).
The complexity deduction is the only penalty added to `totalPenalty`;
the "Failing tests" penalty is pushed onto the breakdown list but never
added to `totalPenalty`, so it does not affect the score. -/
def calculateScore (weights : ScoreWeights) (testResults : TestResults)
    (diffAnalysis : Option DiffAnalysis) : ScoreResult :=
  let testPassRate := calculatePassRate testResults
  let testPassScore := testPassRate * weights.testPass
  let complexityDeduction : ℤ :=
    match diffAnalysis with
    | some d => jsRound ((d.complexityScore : ℚ) * weights.complexityPenalty)
    | none => 0
  let totalPenalty : ℤ := if 0 < complexityDeduction then complexityDeduction else 0
  let penalties : List ScorePenalty :=
    (if 0 < complexityDeduction then
      [{ reason := "High complexity", deduction := complexityDeduction,
         details := "changes across files" }]
     else []) ++
    (if testPassRate < 100 then
      [{ reason := "Failing tests", deduction := jsRound (100 - testPassRate),
         details := "tests failing" }]
     else [])
  let rawScore := testPassScore - (totalPenalty : ℚ)
  let final : ℤ := max 0 (min 100 (jsRound rawScore))
  { score := final
    passRate := (jsRound (testPassRate * 100) : ℚ) / 100
    breakdown :=
      { base := 100
        testPassRate := (jsRound (testPassRate * 100) : ℚ) / 100
        penalties := penalties
        final := final } }

/-! ## Worktree manager (worktree-manager.ts) and worktree setup (tools.ts) -/

/-- Worktrees root directory (worktree-manager.ts line 14). -/
def worktreesDir (projectRoot : String) : String :=
  projectRoot ++ "/.finsliparn/worktrees"

/-- `WorktreeManager.getWorktreePath` (worktree-manager.ts lines 200–202). -/
def getWorktreePath (projectRoot branchName : String) : String :=
  worktreesDir projectRoot ++ "/" ++ branchName

/-- The `git worktree add -B <branch> <path> <base>` invocation issued by
`WorktreeManager.createWorktree` (worktree-manager.ts lines 31–38). -/
structure GitWorktreeAdd where
  branchName : String
  worktreePath : String
  baseBranch : String
deriving DecidableEq

/-- `WorktreeManager.createWorktree(branchName, baseBranch)`
(worktree-manager.ts lines 17–53), modelled as the git invocation it issues.
In the source `baseBranch` is an optional parameter defaulting to `"main"`. -/
def createWorktree (projectRoot branchName baseBranch : String) : GitWorktreeAdd :=
  { branchName := branchName
    worktreePath := getWorktreePath projectRoot branchName
    baseBranch := baseBranch }

/-- Branch naming scheme for single-attempt iterations
(tools.ts line 98, line 392, line 800). -/
def iterationBranchName (sessionId : String) (iteration : Nat) : String :=
  "finsliparn/" ++ sessionId ++ "/iteration-" ++ toString iteration

/-- The worktree-creation call of `setupWorktree` (tools.ts line 117):
`worktreeManager.createWorktree(branchName)` — only one argument is passed,
so `baseBranch` takes its default value `"main"`
(worktree-manager.ts line 19).  This is the create path, taken when no
worktree for the branch exists yet. -/
def setupWorktreeCreateCmd (projectRoot sessionId : String) (iteration : Nat) :
    GitWorktreeAdd :=
  createWorktree projectRoot (iterationBranchName sessionId iteration) "main"

/-! ## Session lock (session-manager.ts `acquireLock` / `withLock`) -/

/-- `LOCK_TIMEOUT` (session-manager.ts): 30 seconds, in ms. -/
def LOCK_TIMEOUT : ℤ := 30000

/-- `LOCK_STALE_THRESHOLD` (session-manager.ts): 1 minute, in ms. -/
def LOCK_STALE_THRESHOLD : ℤ := 60000

/-- Owner marker written to the lock file: process identity plus
acquisition time (session-manager.ts `lockData`). -/
structure LockInfo where
  pid : Nat
  timestamp : ℤ
deriving DecidableEq

/-- Result of one acquisition attempt. -/
inductive AcquireResult
  | acquired (newLock : LockInfo)
  | lockedBy (pid : Nat)
deriving DecidableEq

/-- `SessionManager.acquireLock` (session-manager.ts): reads the existing lock
marker; if one exists and its age is below `LOCK_STALE_THRESHOLD` the call
throws "is locked by process"; otherwise (stale marker, discarded with a
warning, or no/invalid marker) the new owner marker is written. -/
def acquireLock (existing : Option LockInfo) (pid : Nat) (now : ℤ) :
    AcquireResult :=
  match existing with
  | some lock =>
      if now - lock.timestamp < LOCK_STALE_THRESHOLD then .lockedBy lock.pid
      else .acquired { pid := pid, timestamp := now }
  | none => .acquired { pid := pid, timestamp := now }

/-- Outcome of a `withLock` call: the operation's value, the operation's
thrown error (re-raised after the `finally` release), or a lock timeout. -/
inductive LockOutcome (ε α : Type)
  | success (a : α)
  | opError (e : ε)
  | lockTimeout
deriving DecidableEq

/-- Final state after a `withLock` call: its outcome plus the state of the
lock file afterwards. -/
structure WithLockResult (ε α : Type) where
  outcome : LockOutcome ε α
  lockState : Option LockInfo
deriving DecidableEq

/-- The retry loop of `SessionManager.withLock` (session-manager.ts):
attempt `acquireLock` while `now - start < LOCK_TIMEOUT`, sleeping 100 ms
after each "is locked by process" failure; if never acquired, fail with the
lock-timeout error.  On acquisition, run the operation and release the lock
in a `finally` block (so release happens both on normal return and on
throw).  Attempt `k` happens at time `start + 100 * k`; the surrounding
lock-file state is `lock0` throughout (no external interference while
waiting).  `fuel` bounds the recursion; `withLock` passes fuel 301, which
exceeds the at most 300 loop iterations (`100 * k < 30000`), so the fuel-0
case is unreachable (and returns the same value as the timeout exit). -/
def withLockGo (lock0 : Option LockInfo) (pid : Nat) (start : ℤ)
    (op : Except ε α) : Nat → Nat → WithLockResult ε α
  | 0, _ => { outcome := .lockTimeout, lockState := lock0 }
  | fuel + 1, k =>
      if 100 * (k : ℤ) < LOCK_TIMEOUT then
        match acquireLock lock0 pid (start + 100 * k) with
        | .acquired _ =>
            match op with
            | .ok a => { outcome := .success a, lockState := none }
            | .error e => { outcome := .opError e, lockState := none }
        | .lockedBy _ => withLockGo lock0 pid start op fuel (k + 1)
      else { outcome := .lockTimeout, lockState := lock0 }

/-- `SessionManager.withLock` (session-manager.ts): the full
acquire-with-retries / run / always-release protocol. -/
def withLock (lock0 : Option LockInfo) (pid : Nat) (start : ℤ)
    (op : Except ε α) : WithLockResult ε α :=
  withLockGo lock0 pid start op 301 0

/-! ## Soft scorer (soft-scorer.ts)

`Number(...)` and `JSON.parse(...)` are JavaScript built-ins; they are
modelled as oracle parameters (`numParse`, `jsonParse`), with `none`
standing for `NaN` / a parse exception.  All the comparison logic itself is
embedded. -/

/-- JavaScript whitespace for `String.prototype.trim` (ASCII fragment). -/
def isJsSpace (c : Char) : Bool :=
  c = ' ' ∨ c = '\t' ∨ c = '\n' ∨ c = '\r' ∨ c = '\x0b' ∨ c = '\x0c'

/-- `value.trim()`. -/
def jsTrim (s : String) : String :=
  (((s.toList.dropWhile isJsSpace).reverse.dropWhile isJsSpace).reverse).asString

/-- `value.replace(/^["']|["']$/g, "")` (soft-scorer.ts `parseNumber`):
drop one leading and one trailing quote character. -/
def stripEdgeQuotes (s : String) : String :=
  let cs := s.toList
  let cs := match cs with
    | c :: rest => if c = '"' ∨ c = '\'' then rest else c :: rest
    | [] => []
  let cs := match cs.reverse with
    | c :: rest => if c = '"' ∨ c = '\'' then rest.reverse else (c :: rest).reverse
    | [] => []
  cs.asString

/-- `SoftScorer.parseNumber` (soft-scorer.ts lines 243–257): strip edge
quotes, trim, map `"true"`/`"false"` to 1/0, else `Number(cleaned)`
(the oracle; `none` models `NaN`). -/
def parseNumber (numParse : String → Option ℚ) (value : String) : Option ℚ :=
  let cleaned := jsTrim (stripEdgeQuotes value)
  if cleaned = "true" then some 1
  else if cleaned = "false" then some 0
  else numParse cleaned

/-- `SoftScorer.levenshteinDistance` (soft-scorer.ts lines 209–238).  The
source fills the standard dynamic-programming table
`dp[i][j] = min(dp[i][j-1]+1, dp[i-1][j]+1, dp[i-1][j-1]+cost)`; this is the
same recurrence written as a recursion on the two character lists. -/
def levenshteinDistance (a b : List Char) : ℕ :=
  match a, b with
  | [], bs => bs.length
  | c :: cs, [] => (c :: cs).length
  | c :: cs, d :: ds =>
      min (min (levenshteinDistance (c :: cs) ds + 1)
               (levenshteinDistance cs (d :: ds) + 1))
          (levenshteinDistance cs ds + (if c = d then 0 else 1))
termination_by a.length + b.length
decreasing_by
  all_goals simp [List.length_cons]
  all_goals omega

/-- `SoftScorer.compareStrings` (soft-scorer.ts lines 191–204): normalized
Levenshtein similarity, with exact match → 1 and an empty side → 0. -/
def compareStrings (expected actual : String) : ℚ :=
  if expected = actual then 1
  else if expected.length = 0 ∨ actual.length = 0 then 0
  else
    let distance := levenshteinDistance expected.toList actual.toList
    let maxLength := max expected.length actual.length
    max 0 (1 - (distance : ℚ) / (maxLength : ℚ))

/-- A parsed JSON value (the possible results of `JSON.parse`). -/
inductive Json
  | null
  | bool (b : Bool)
  | num (q : ℚ)
  | str (s : String)
  | arr (elems : List Json)
  | obj (fields : List (String × Json))

/-- JavaScript `typeof` on parsed JSON values (`typeof null` is
`"object"`, and arrays are objects). -/
def jsTypeof : Json → String
  | .null => "object"
  | .bool _ => "boolean"
  | .num _ => "number"
  | .str _ => "string"
  | .arr _ => "object"
  | .obj _ => "object"

/-- JavaScript `===` on two values produced by two separate `JSON.parse`
calls: primitives compare by value; arrays and objects compare by reference
and two separately parsed values are never the same reference. -/
def jsStrictEq : Json → Json → Bool
  | .null, .null => true
  | .bool a, .bool b => a = b
  | .num a, .num b => a = b
  | .str a, .str b => a = b
  | _, _ => false

/-- Is this value `null`? -/
def Json.isNull : Json → Bool
  | .null => true
  | _ => false

/-- Index keys "i", "i+1", … of an array's elements, as produced by
`Object.keys` on an array. -/
def arrKeysFrom : ℕ → List Json → List String
  | _, [] => []
  | i, _ :: xs => toString i :: arrKeysFrom (i + 1) xs

/-- Element lookup by index key (models `array[key]` together with
`key in array` for the index keys produced by `Object.keys`). -/
def arrGetField : ℕ → List Json → String → Option Json
  | _, [], _ => none
  | i, x :: xs, k => if toString i = k then some x else arrGetField (i + 1) xs k

/-- `Object.keys` on a parsed JSON value: an object's own field names, an
array's index keys, nothing for primitives. -/
def Json.keys : Json → List String
  | .obj fields => fields.map (·.1)
  | .arr elems => arrKeysFrom 0 elems
  | _ => []

/-- Own-property access `value[key]` (with `key in value` modelled as this
being `some`; JSON objects are assumed to have no duplicate keys, which is
what `JSON.parse` produces). -/
def Json.getField : Json → String → Option Json
  | .obj fields, k => List.lookup k fields
  | .arr elems, k => arrGetField 0 elems k
  | _, _ => none

theorem sizeOf_lookup_lt (k : String) (fields : List (String × Json)) (v : Json)
    (h : List.lookup k fields = some v) : sizeOf v < sizeOf fields := by
  induction fields with
  | nil => simp [List.lookup] at h
  | cons p tl ih =>
      obtain ⟨k1, v1⟩ := p
      cases hbeq : k == k1 with
      | true =>
          simp only [List.lookup, hbeq] at h
          cases h
          simp
          omega
      | false =>
          simp only [List.lookup, hbeq] at h
          have := ih h
          simp
          omega

theorem sizeOf_arrGetField_lt (i : ℕ) (elems : List Json) (k : String) (v : Json)
    (h : arrGetField i elems k = some v) : sizeOf v < sizeOf elems := by
  induction elems generalizing i with
  | nil => simp [arrGetField] at h
  | cons x xs ih =>
      simp only [arrGetField] at h
      split at h
      · cases h
        simp
        omega
      · have := ih (i + 1) h
        simp
        omega

theorem sizeOf_getField_lt (j : Json) (k : String) (v : Json)
    (h : j.getField k = some v) : sizeOf v < sizeOf j := by
  cases j with
  | obj fields =>
      simp only [Json.getField] at h
      have := sizeOf_lookup_lt k fields v h
      simp
      omega
  | arr elems =>
      simp only [Json.getField] at h
      have := sizeOf_arrGetField_lt 0 elems k v h
      simp
      omega
  | null => simp [Json.getField] at h
  | bool b => simp [Json.getField] at h
  | num q => simp [Json.getField] at h
  | str s => simp [Json.getField] at h

mutual

/-- `SoftScorer.compareObjects` (soft-scorer.ts lines 108–138): strict
equality → 1; `typeof` mismatch → 0; two arrays → element-wise average
(`compareArrays`, lines 143–160); otherwise two non-null values of typeof
`"object"` → field-wise average over the union of keys
(`compareObjectFields`, lines 165–186, which also receives arrays when the
two sides are an array and a plain object); otherwise the numeric / string
/ strict-equality scalar rules. -/
def compareObjects (expected actual : Json) : ℚ :=
  if jsStrictEq expected actual then 1
  else if jsTypeof expected ≠ jsTypeof actual then 0
  else
    match expected, actual with
    | .arr xs, .arr ys =>
        if xs.length = 0 ∧ ys.length = 0 then 1
        else compareArraysSum xs ys / ((max xs.length ys.length : ℕ) : ℚ)
    | e, a =>
        if jsTypeof e = "object" ∧ ¬ e.isNull ∧ ¬ a.isNull then
          let allKeys := (e.keys ++ a.keys).dedup
          if allKeys.length = 0 then 1
          else compareFieldsSum allKeys e a / (allKeys.length : ℚ)
        else
          match e, a with
          | .num x, .num y => max 0 (1 - |x - y| / max (max |x| |y|) 1)
          | .str s, .str t => compareStrings s t
          | _, _ => if jsStrictEq e a then 1 else 0
termination_by
  (sizeOf expected + sizeOf actual,
   ((Json.keys expected ++ Json.keys actual).dedup).length + 1)
decreasing_by
  all_goals simp_wf
  all_goals
    first
      | (apply Prod.Lex.right
         omega)
      | (apply Prod.Lex.left
         omega)
      | (apply Prod.Lex.left
         simp
         omega)

/-- The summation loop of `SoftScorer.compareArrays` (soft-scorer.ts lines
148–159): positions where either side is missing contribute 0 (are
skipped), so only the overlapping prefix contributes. -/
def compareArraysSum : List Json → List Json → ℚ
  | x :: xs, y :: ys => compareObjects x y + compareArraysSum xs ys
  | _, _ => 0
termination_by xs ys => (sizeOf xs + sizeOf ys, 0)
decreasing_by
  all_goals simp_wf
  all_goals
    first
      | (apply Prod.Lex.right
         omega)
      | (apply Prod.Lex.left
         omega)
      | (apply Prod.Lex.left
         simp
         omega)

/-- The summation loop of `SoftScorer.compareObjectFields` (soft-scorer.ts
lines 175–184): keys missing on either side contribute 0 (are skipped). -/
def compareFieldsSum : List String → Json → Json → ℚ
  | [], _, _ => 0
  | k :: ks, e, a =>
      (match h1 : e.getField k, h2 : a.getField k with
       | some v1, some v2 => compareObjects v1 v2
       | _, _ => 0) + compareFieldsSum ks e a
termination_by ks e a => (sizeOf e + sizeOf a, ks.length)
decreasing_by
  all_goals simp_wf
  all_goals
    first
      | (have t1 := sizeOf_getField_lt _ _ _ h1
         have t2 := sizeOf_getField_lt _ _ _ h2
         exact Prod.Lex.left _ _ (by omega))
      | (apply Prod.Lex.right
         omega)
      | (apply Prod.Lex.left
         omega)
      | (apply Prod.Lex.left
         simp
         omega)

end

/-- `SoftScorer.compareNumeric` (soft-scorer.ts lines 67–85): `none` when
either side does not parse as a number; equality → 1; otherwise
`max(0, 1 − |a−b| / max(|a|,|b|,1))`. -/
def compareNumeric (numParse : String → Option ℚ) (expected actual : String) :
    Option ℚ :=
  match parseNumber numParse expected, parseNumber numParse actual with
  | some expectedNum, some actualNum =>
      some (if expectedNum = actualNum then 1
            else max 0 (1 - |expectedNum - actualNum| /
                          max (max |expectedNum| |actualNum|) 1))
  | _, _ => none

/-- `SoftScorer.compareJson` (soft-scorer.ts lines 91–103): `none` when
either side fails to parse as JSON. -/
def compareJson (jsonParse : String → Option Json) (expected actual : String) :
    Option ℚ :=
  match jsonParse expected, jsonParse actual with
  | some expectedObj, some actualObj => some (compareObjects expectedObj actualObj)
  | _, _ => none

/-- `SoftScorer.calculateFailureSoftScore` (soft-scorer.ts lines 15–41).
The guard `!(failure.expected && failure.actual)` is falsy-based, so a
missing *or empty* expected/actual yields 0. -/
def calculateFailureSoftScore (numParse : String → Option ℚ)
    (jsonParse : String → Option Json) (failure : TestFailure) : ℚ :=
  match failure.expected, failure.actual with
  | some e, some a =>
      if e = "" ∨ a = "" then 0
      else
        let expected := jsTrim e
        let actual := jsTrim a
        if expected = actual then 1
        else
          match compareNumeric numParse expected actual with
          | some numericScore => numericScore
          | none =>
              match compareJson jsonParse expected actual with
              | some jsonScore => jsonScore
              | none => compareStrings expected actual
  | _, _ => 0

/-- `SoftScorer.calculateTestResultsSoftScore` (soft-scorer.ts lines 47–61):
`(passed + Σ per-failure soft scores) / total`, and 0 when `total = 0`. -/
def calculateTestResultsSoftScore (numParse : String → Option ℚ)
    (jsonParse : String → Option Json) (results : TestResults) : ℚ :=
  if results.total = 0 then 0
  else ((results.passed : ℚ) +
        (results.failures.map (calculateFailureSoftScore numParse jsonParse)).sum) /
       (results.total : ℚ)

/-! ## Session data model (src/types, session-manager.ts) -/

/-- `SessionStatus` (src/types). -/
inductive SessionStatus
  | initializing
  | iterating
  | evaluating
  | completed
  | failed
  | cancelled
deriving DecidableEq

/-- Lifecycle status of one iteration record (src/types). -/
inductive IterStatus
  | pending
  | running
  | completed
  | failed
deriving DecidableEq

/-- `SolutionMemory` (src/types): recorded solution snapshot. -/
structure SolutionMemory where
  code : String
  feedback : String
  score : ℤ
deriving DecidableEq

/-- `IterationResult` (src/types): one AttemptRecord. -/
structure IterationResult where
  iteration : ℕ
  status : IterStatus
  score : Option ℤ := none
  testResults : Option TestResults := none
  diff : Option DiffAnalysis := none
  worktreePath : Option String := none
  solution : Option SolutionMemory := none
deriving DecidableEq

/-- `RefinementSession` (src/types). -/
structure RefinementSession where
  id : String
  taskDescription : String := ""
  status : SessionStatus
  maxIterations : ℕ
  currentIteration : ℕ
  iterations : List IterationResult
  bestIteration : Option ℕ := none
  bestScore : Option ℤ := none
  mergeThreshold : Option ℤ := none
  selectedIteration : Option ℕ := none
deriving DecidableEq

/-! ## Effect traces of the orchestrator operations (tools.ts)

Each MCP tool is embedded as a pure function from its inputs (the loaded
session document and the outcomes of external collaborators: worktree setup,
test runner, git) to its response together with the ordered list of effects
it performs against the session store / the version-control system. -/

/-- Observable effects of the orchestrator operations.  `loadSession` is the
session-store read; `updateStatus`, `addIteration` and `updateBestResult`
are its read-modify-write mutations (each calls `loadSession` +
`persistSession` internally in session-manager.ts). -/
inductive Event
  | acquireLock (sessionId : String)
  | releaseLock (sessionId : String)
  | loadSession (sessionId : String)
  | updateStatus (sessionId : String) (status : SessionStatus)
  | addIteration (sessionId : String) (record : IterationResult)
  | updateBestResult (sessionId : String) (iteration : ℕ) (score : ℤ)
  | deleteWorktree (branchName : String)
  | gitMerge (branchName : String)
  | writeDirective
deriving DecidableEq

/-- Is this event a mutation of the per-session state document? -/
def Event.mutatesSession : Event → Bool
  | .updateStatus _ _ => true
  | .addIteration _ _ => true
  | .updateBestResult _ _ _ => true
  | _ => false

/-- Is this event an append of an AttemptRecord? -/
def Event.isAddIteration : Event → Bool
  | .addIteration _ _ => true
  | _ => false

/-- Is this event a lock acquire/release? -/
def Event.isLockEvent : Event → Bool
  | .acquireLock _ => true
  | .releaseLock _ => true
  | _ => false

/-- Every session-store mutation in the trace happens while the advisory
lock is held (lock depth > 0 at that point). -/
def wellLocked : ℕ → List Event → Bool
  | _, [] => true
  | depth, Event.acquireLock _ :: rest => wellLocked (depth + 1) rest
  | depth, Event.releaseLock _ :: rest => wellLocked (depth - 1) rest
  | depth, ev :: rest =>
      if ev.mutatesSession && depth == 0 then false else wellLocked depth rest

/-- The sequence of status values written by the trace. -/
def statusWrites (evs : List Event) : List SessionStatus :=
  evs.filterMap fun ev =>
    match ev with
    | .updateStatus _ st => some st
    | _ => none

/-- The status transitions (from, to) performed by the trace, starting from
the session's status at load time. -/
def statusTransitions (st0 : SessionStatus) : List Event → List (SessionStatus × SessionStatus)
  | [] => []
  | Event.updateStatus _ st :: rest => (st0, st) :: statusTransitions st rest
  | _ :: rest => statusTransitions st0 rest

/-- The edges of the status state machine as the specification draws it:
`initializing → iterating ⇄ evaluating → completed`, `failed`/`cancelled`
reachable only from `iterating`/`evaluating`, terminal states without
outgoing edges.  (`iterating → completed` is included because the spec's
automatic perfect-score completion fires during a validate, i.e. from
`iterating`.) -/
def claimEdge : SessionStatus → SessionStatus → Bool
  | .initializing, .iterating => true
  | .iterating, .evaluating => true
  | .evaluating, .iterating => true
  | .evaluating, .completed => true
  | .iterating, .completed => true
  | .iterating, .failed => true
  | .evaluating, .failed => true
  | .iterating, .cancelled => true
  | .evaluating, .cancelled => true
  | _, _ => false

/-- Does every status write in the trace follow a state-machine edge? -/
def followsClaimMachine (st0 : SessionStatus) (evs : List Event) : Bool :=
  (statusTransitions st0 evs).all fun p => claimEdge p.1 p.2

/-! ## Voting strategy selectors (tools.ts lines 292–320, 712–734) -/

/-- JavaScript `Array.prototype.reduce`-style argmax: start from the first
element; replace the accumulator when the current element's key is strictly
greater (ties keep the earlier element).  `none` on the empty list (where
`reduce` would throw). -/
def argmaxBy {α β : Type} [LinearOrder β] (key : α → β) : List α → Option α
  | [] => none
  | x :: xs =>
      some (xs.foldl (fun best current => if key best < key current then current else best) x)

/-- `reduce`-style argmin: replace the accumulator when the current
element's key is strictly smaller (ties keep the earlier element). -/
def argminBy {α β : Type} [LinearOrder β] (key : α → β) : List α → Option α
  | [] => none
  | x :: xs =>
      some (xs.foldl (fun best current => if key current < key best then current else best) x)

/-- `(iter.diff?.insertions ?? 0) + (iter.diff?.deletions ?? 0)`
(tools.ts lines 299–302). -/
def diffSize (iter : IterationResult) : ℕ :=
  (iter.diff.map (·.insertions)).getD 0 + (iter.diff.map (·.deletions)).getD 0

/-- `selectMinimalDiffWinner` (tools.ts lines 292–305): candidates are the
passing iterations when any exist, otherwise all completed iterations;
`reduce` keeps the strictly smaller diff. -/
def selectMinimalDiffWinner (completedIterations passingIterations : List IterationResult) :
    Option IterationResult :=
  let candidates :=
    if 0 < passingIterations.length then passingIterations else completedIterations
  argminBy diffSize candidates

/-- The balanced score `0.7 × score − min(diffSize/500, 1) × 30`
(tools.ts lines 310–317). -/
def balancedScore (iter : IterationResult) : ℚ :=
  ((iter.score.getD 0 : ℤ) : ℚ) * (7/10) - min ((diffSize iter : ℚ) / 500) 1 * 30

/-- `selectBalancedWinner` (tools.ts lines 307–320). -/
def selectBalancedWinner (completedIterations : List IterationResult) :
    Option IterationResult :=
  argmaxBy balancedScore completedIterations

/-- `highest_score` selection (tools.ts lines 719–721): `reduce` keeping the
strictly higher `score ?? 0`. -/
def selectHighestScoreWinner (completedIterations : List IterationResult) :
    Option IterationResult :=
  argmaxBy (fun it => it.score.getD 0) completedIterations

/-! ## finslipaCheck (tools.ts lines 471–603) -/

/-- Outcome of `setupWorktree` (tools.ts lines 93–140), as seen by
`finslipaCheck`. -/
inductive WorktreeSetup
  | reused (path : String)
  | created (path : String)
  | creationFailed (err : String)
deriving DecidableEq

/-- Did worktree setup fail? -/
def WorktreeSetup.failedSetup : WorktreeSetup → Bool
  | .creationFailed _ => true
  | _ => false

/-- The worktree path carried into the check context. -/
def WorktreeSetup.path : WorktreeSetup → Option String
  | .reused p => some p
  | .created p => some p
  | .creationFailed _ => none

/-- Outcome of the external test runner + diff analyzer inside
`runTestPhase`: either structured results, or a thrown
detection/execution error. -/
inductive TestRunOutcome
  | ran (results : TestResults) (diffAnalysis : DiffAnalysis) (rawDiff : String)
  | crashed (err : String)
deriving DecidableEq

/-- Response of `finslipaCheck`. -/
inductive CheckResponse
  | ok (passed failed total : ℕ) (score : ℤ)
  | failure (code : String)
deriving DecidableEq

/-- `TestPhaseResult` (tools.ts lines 81–85). -/
structure TestPhaseResult where
  testResults : TestResults
  diffAnalysis : DiffAnalysis
  rawDiff : String
deriving DecidableEq

/-- `runTestPhase` (tools.ts lines 142–175): annotate the results with the
aggregate soft score, then fail with `NO_TESTS_DETECTED` when the run
reported zero total tests; otherwise hand the phase result on. -/
def runTestPhase (numParse : String → Option ℚ) (jsonParse : String → Option Json)
    (results : TestResults) (diffAnalysis : DiffAnalysis) (rawDiff : String) :
    Except String TestPhaseResult :=
  let results :=
    { results with softScore := some (calculateTestResultsSoftScore numParse jsonParse results) }
  if results.total = 0 then .error "NO_TESTS_DETECTED"
  else .ok { testResults := results, diffAnalysis := diffAnalysis, rawDiff := rawDiff }

/-- The solution feedback string of `runAnalysisPhase` (tools.ts lines
189–196); the decimal rendering of the soft-score suffix is elided. -/
def solutionFeedback (results : TestResults) : String :=
  if 0 < results.failed then
    toString results.failed ++ "/" ++ toString results.total ++ " tests failing"
  else "All " ++ toString results.total ++ " tests passing"

/-- `AnalysisPhaseResult` (tools.ts lines 87–91); the quality analysis is a
renderer-side collaborator and is elided (it never touches session state). -/
structure AnalysisPhaseResult where
  scoreResult : ScoreResult
  solution : SolutionMemory
deriving DecidableEq

/-- `runAnalysisPhase` (tools.ts lines 177–205). -/
def runAnalysisPhase (tp : TestPhaseResult) : AnalysisPhaseResult :=
  let scoreResult := calculateScore DEFAULT_WEIGHTS tp.testResults (some tp.diffAnalysis)
  { scoreResult := scoreResult
    solution :=
      { code := if tp.rawDiff = "" then "(no changes)" else tp.rawDiff
        feedback := solutionFeedback tp.testResults
        score := scoreResult.score } }

/-- `persistIterationPhase` (tools.ts lines 207–237): append the record,
update the best-result pointer, and set status `completed` exactly when all
tests pass (`failed = 0` and `total > 0`). -/
def persistIterationEvents (sessionId : String) (iteration : ℕ)
    (record : IterationResult) (score : ℤ) (results : TestResults) : List Event :=
  [Event.addIteration sessionId record,
   Event.updateBestResult sessionId iteration score] ++
  (if results.failed = 0 ∧ 0 < results.total then
    [Event.updateStatus sessionId .completed]
   else [])

/-- The body of `finslipaCheck` (tools.ts lines 479–587), i.e. the closure
passed to `withLock`: load → cap check (setting `failed`) → set `iterating`
→ worktree setup → test phase → analysis → persist → directive update. -/
def checkBody (numParse : String → Option ℚ) (jsonParse : String → Option Json)
    (sessionId : String) (useWorktree : Bool) (sess : Option RefinementSession)
    (wt : WorktreeSetup) (run : TestRunOutcome) : CheckResponse × List Event :=
  match sess with
  | none => (.failure "SESSION_NOT_FOUND", [.loadSession sessionId])
  | some session =>
    if session.maxIterations ≤ session.currentIteration then
      (.failure "MAX_ITERATIONS_REACHED",
       [.loadSession sessionId, .updateStatus sessionId .failed])
    else
      let ev0 : List Event := [.loadSession sessionId, .updateStatus sessionId .iterating]
      let iteration := session.currentIteration + 1
      if useWorktree && wt.failedSetup then
        (.failure "WORKTREE_CREATION_FAILED", ev0)
      else
        let worktreePath : Option String := if useWorktree then wt.path else none
        match run with
        | .crashed _ => (.failure "TEST_RUN_FAILED", ev0)
        | .ran results diffAnalysis rawDiff =>
          match runTestPhase numParse jsonParse results diffAnalysis rawDiff with
          | .error code => (.failure code, ev0)
          | .ok tp =>
            let ap := runAnalysisPhase tp
            let record : IterationResult :=
              { iteration := iteration
                status := .completed
                score := some ap.scoreResult.score
                testResults := some tp.testResults
                diff := some tp.diffAnalysis
                worktreePath := worktreePath
                solution := some ap.solution }
            (.ok tp.testResults.passed tp.testResults.failed tp.testResults.total
               ap.scoreResult.score,
             ev0 ++ persistIterationEvents sessionId iteration record ap.scoreResult.score
                     tp.testResults ++
               [.loadSession sessionId, .loadSession sessionId, .writeDirective])

/-- `finslipaCheck` (tools.ts lines 471–603): the body runs inside
`sessionManager.withLock`.  `lockAcquired` says whether the lock round-trip
succeeded; when it does not, the throw from `withLock` is caught by the
outer `catch` (line 589), producing a `CHECK_FAILED` response after no
session event at all. -/
def finslipaCheck (numParse : String → Option ℚ) (jsonParse : String → Option Json)
    (sessionId : String) (useWorktree : Bool) (sess : Option RefinementSession)
    (wt : WorktreeSetup) (run : TestRunOutcome) (lockAcquired : Bool) :
    CheckResponse × List Event :=
  if lockAcquired then
    let body := checkBody numParse jsonParse sessionId useWorktree sess wt run
    (body.1, Event.acquireLock sessionId :: body.2 ++ [Event.releaseLock sessionId])
  else (.failure "CHECK_FAILED", [])

/-! ## finslipaVote (tools.ts lines 646–759) -/

/-- The three strategies accepted by `finslipaVote`'s signature. -/
inductive VoteStrategy
  | highest_score
  | minimal_diff
  | balanced
deriving DecidableEq

/-- Strategy name string. -/
def VoteStrategy.strategyName : VoteStrategy → String
  | .highest_score => "highest_score"
  | .minimal_diff => "minimal_diff"
  | .balanced => "balanced"

/-- Response of `finslipaVote`. -/
inductive VoteResponse
  | ok (selectedIteration : ℕ) (score : Option ℤ) (strategy : String)
  | failure (code : String)
deriving DecidableEq

/-- `finslipaVote` (tools.ts lines 646–759).  Note: the whole operation runs
directly on `loadSession` / `updateSessionStatus`, with no `withLock`
wrapper. -/
def finslipaVote (sessionId : String) (strategy : VoteStrategy) (returnBest : Bool)
    (sess : Option RefinementSession) : VoteResponse × List Event :=
  match sess with
  | none => (.failure "SESSION_NOT_FOUND", [.loadSession sessionId])
  | some session =>
    if session.iterations.length = 0 then
      (.failure "NO_ITERATIONS", [.loadSession sessionId])
    else if returnBest && session.bestIteration.isSome then
      (.ok (session.bestIteration.getD 0) session.bestScore "best_tracked",
       [.loadSession sessionId, .updateStatus sessionId .evaluating])
    else
      let completedIterations := session.iterations.filter
        (fun it => it.status == IterStatus.completed && it.score.isSome)
      if completedIterations.length = 0 then
        (.failure "NO_SCORED_ITERATIONS", [.loadSession sessionId])
      else
        let passingIterations := completedIterations.filter (fun it => it.score == some 100)
        let winner : Option IterationResult :=
          match strategy with
          | .highest_score => selectHighestScoreWinner completedIterations
          | .minimal_diff => selectMinimalDiffWinner completedIterations passingIterations
          | .balanced => selectBalancedWinner completedIterations
        match winner with
        | some w =>
            (.ok w.iteration w.score strategy.strategyName,
             [.loadSession sessionId, .updateStatus sessionId .evaluating])
        | none => (.failure "NO_SCORED_ITERATIONS", [.loadSession sessionId])

/-! ## finslipaCancel (tools.ts lines 761–859) -/

/-- Response of `finslipaCancel`. -/
inductive CancelResponse
  | ok
  | failure (code : String)
deriving DecidableEq

/-- `finslipaCancel` (tools.ts lines 761–859): refuse when already
completed/cancelled; otherwise best-effort delete every iteration's
worktree (failures only logged), then set status `cancelled` and clear the
directive.  No `withLock` wrapper. -/
def finslipaCancel (sessionId : String) (sess : Option RefinementSession) :
    CancelResponse × List Event :=
  match sess with
  | none => (.failure "SESSION_NOT_FOUND", [.loadSession sessionId])
  | some session =>
    if session.status = SessionStatus.completed ∨ session.status = SessionStatus.cancelled then
      (.failure "SESSION_ALREADY_FINISHED", [.loadSession sessionId])
    else
      let cleanupEvents := (session.iterations.filter (fun it => it.worktreePath.isSome)).map
        (fun it => Event.deleteWorktree (iterationBranchName session.id it.iteration))
      (.ok,
       Event.loadSession sessionId :: cleanupEvents ++
         [Event.updateStatus sessionId .cancelled, Event.writeDirective])

/-! ## finslipaMerge (tools.ts lines 887–1023) -/

/-- Response of `finslipaMerge`. -/
inductive MergeResponse
  | ok (mergedIteration : ℕ) (finalScore : Option ℤ)
  | failure (code : String)
deriving DecidableEq

/-- The early-exit perfect-score check (tools.ts lines 931–935):
`score === 100 && testResults?.failed === 0 && (testResults?.passed ?? 0) > 0`. -/
def isPerfectScore (it : IterationResult) : Bool :=
  match it.testResults with
  | some tr => it.score == some 100 && tr.failed == 0 && decide (0 < tr.passed)
  | none => false

/-- `finslipaMerge` (tools.ts lines 887–1023).  No `withLock` wrapper. -/
def finslipaMerge (sessionId : String) (iterationNumber : Option ℕ)
    (sess : Option RefinementSession) (gitOk : Bool) : MergeResponse × List Event :=
  match sess with
  | none => (.failure "SESSION_NOT_FOUND", [.loadSession sessionId])
  | some session =>
    let targetIteration :=
      iterationNumber.getD (session.selectedIteration.getD session.currentIteration)
    match session.iterations.find? (fun it => it.iteration == targetIteration) with
    | none => (.failure "ITERATION_NOT_FOUND", [.loadSession sessionId])
    | some iteration =>
      let completedIterations := session.iterations.filter
        (fun it => it.status == IterStatus.completed && it.score.isSome)
      if completedIterations.length < 2 ∧ ¬ isPerfectScore iteration then
        (.failure "INSUFFICIENT_ITERATIONS", [.loadSession sessionId])
      else if (match session.mergeThreshold with
               | some t => decide (iteration.score.getD 0 < t)
               | none => false) then
        (.failure "SCORE_BELOW_THRESHOLD", [.loadSession sessionId])
      else
        match iteration.worktreePath with
        | some _ =>
          let branchName := iterationBranchName session.id targetIteration
          if gitOk then
            (.ok targetIteration iteration.score,
             [Event.loadSession sessionId, Event.gitMerge branchName,
              Event.deleteWorktree branchName, Event.updateStatus sessionId .completed])
          else (.failure "GIT_MERGE_FAILED", [.loadSession sessionId])
        | none =>
          (.ok targetIteration iteration.score,
           [Event.loadSession sessionId, Event.updateStatus sessionId .completed])

/-! ## Properties of the `reduce`-style selectors -/

theorem foldl_argmax_mem {α β : Type} [LinearOrder β] (key : α → β) (l : List α) (acc : α) :
    l.foldl (fun best current => if key best < key current then current else best) acc ∈
      acc :: l := by
  induction l generalizing acc with
  | nil => simp
  | cons x xs ih =>
      simp only [List.foldl_cons]
      have h := ih (if key acc < key x then x else acc)
      rcases List.mem_cons.mp h with h1 | h1
      · rw [h1]
        split
        · simp
        · simp
      · simp [List.mem_cons, h1]

theorem foldl_argmax_acc_le {α β : Type} [LinearOrder β] (key : α → β) (l : List α) (acc : α) :
    key acc ≤
      key (l.foldl (fun best current => if key best < key current then current else best) acc) := by
  induction l generalizing acc with
  | nil => simp
  | cons x xs ih =>
      simp only [List.foldl_cons]
      refine le_trans ?_ (ih (if key acc < key x then x else acc))
      split
      · next hlt => exact le_of_lt hlt
      · exact le_refl _

theorem foldl_argmax_le {α β : Type} [LinearOrder β] (key : α → β) (l : List α) (acc : α) :
    ∀ y ∈ l,
      key y ≤
        key (l.foldl (fun best current => if key best < key current then current else best) acc) := by
  induction l generalizing acc with
  | nil => simp
  | cons x xs ih =>
      intro y hy
      simp only [List.foldl_cons]
      rcases List.mem_cons.mp hy with h1 | h1
      · subst h1
        refine le_trans ?_ (foldl_argmax_acc_le key xs (if key acc < key y then y else acc))
        split
        · exact le_refl _
        · next hnlt => exact le_of_not_lt hnlt
      · exact ih (if key acc < key x then x else acc) y h1

theorem argmaxBy_mem {α β : Type} [LinearOrder β] (key : α → β) (l : List α) (w : α)
    (h : argmaxBy key l = some w) : w ∈ l := by
  match l with
  | [] => simp [argmaxBy] at h
  | x :: xs =>
      simp only [argmaxBy, Option.some.injEq] at h
      subst h
      exact foldl_argmax_mem key xs x

theorem argmaxBy_le {α β : Type} [LinearOrder β] (key : α → β) (l : List α) (w : α)
    (h : argmaxBy key l = some w) : ∀ y ∈ l, key y ≤ key w := by
  match l with
  | [] => simp [argmaxBy] at h
  | x :: xs =>
      simp only [argmaxBy, Option.some.injEq] at h
      subst h
      intro y hy
      rcases List.mem_cons.mp hy with h1 | h1
      · subst h1
        exact foldl_argmax_acc_le key xs y
      · exact foldl_argmax_le key xs x y h1

theorem foldl_argmin_mem {α β : Type} [LinearOrder β] (key : α → β) (l : List α) (acc : α) :
    l.foldl (fun best current => if key current < key best then current else best) acc ∈
      acc :: l := by
  induction l generalizing acc with
  | nil => simp
  | cons x xs ih =>
      simp only [List.foldl_cons]
      have h := ih (if key x < key acc then x else acc)
      rcases List.mem_cons.mp h with h1 | h1
      · rw [h1]
        split
        · simp
        · simp
      · simp [List.mem_cons, h1]

theorem foldl_argmin_acc_le {α β : Type} [LinearOrder β] (key : α → β) (l : List α) (acc : α) :
    key (l.foldl (fun best current => if key current < key best then current else best) acc) ≤
      key acc := by
  induction l generalizing acc with
  | nil => simp
  | cons x xs ih =>
      simp only [List.foldl_cons]
      refine le_trans (ih (if key x < key acc then x else acc)) ?_
      split
      · next hlt => exact le_of_lt hlt
      · exact le_refl _

theorem foldl_argmin_le {α β : Type} [LinearOrder β] (key : α → β) (l : List α) (acc : α) :
    ∀ y ∈ l,
      key (l.foldl (fun best current => if key current < key best then current else best) acc) ≤
        key y := by
  induction l generalizing acc with
  | nil => simp
  | cons x xs ih =>
      intro y hy
      simp only [List.foldl_cons]
      rcases List.mem_cons.mp hy with h1 | h1
      · subst h1
        refine le_trans (foldl_argmin_acc_le key xs (if key y < key acc then y else acc)) ?_
        split
        · exact le_refl _
        · next hnlt => exact le_of_not_lt hnlt
      · exact ih (if key x < key acc then x else acc) y h1

theorem argminBy_mem {α β : Type} [LinearOrder β] (key : α → β) (l : List α) (w : α)
    (h : argminBy key l = some w) : w ∈ l := by
  match l with
  | [] => simp [argminBy] at h
  | x :: xs =>
      simp only [argminBy, Option.some.injEq] at h
      subst h
      exact foldl_argmin_mem key xs x

theorem argminBy_le {α β : Type} [LinearOrder β] (key : α → β) (l : List α) (w : α)
    (h : argminBy key l = some w) : ∀ y ∈ l, key w ≤ key y := by
  match l with
  | [] => simp [argminBy] at h
  | x :: xs =>
      simp only [argminBy, Option.some.injEq] at h
      subst h
      intro y hy
      rcases List.mem_cons.mp hy with h1 | h1
      · subst h1
        exact foldl_argmin_acc_le key xs y
      · exact foldl_argmin_le key xs x y h1

/-! ## Consensus voting (modelled from the spec) -/

/-- The recorded solution snapshot text an attempt is grouped by. -/
def solutionKey (r : IterationResult) : String :=
  (r.solution.map (·.code)).getD ""

/-- The hard score used to pick a group's representative (`score ?? 0`). -/
def scoreVal (r : IterationResult) : ℤ :=
  r.score.getD 0

/-- A group's vote count: the number of attempts whose recorded solution
snapshot is exactly equal to `key`. -/
def groupVotes (rs : List IterationResult) (key : String) : ℕ :=
  (rs.filter (fun r => solutionKey r == key)).length

/-- Modelled from the spec: the `consensus` voting strategy
(`selectConsensusWinner`).  The provided sources contain the repository's
consensus tests (`tools.test.ts`, "finslipaVote consensus strategy") and the
roadmap entry recording that `selectConsensusWinner` was merged, but the
implementation itself is absent — `finslipaVote` in the provided `tools.ts`
only accepts `highest_score | minimal_diff | balanced`.  Per the spec §4.4:
group attempts by exact equality of their recorded solution snapshot, each
group's vote count is its size, the winner comes from a group with the most
votes, and within the winning group the representative is the member with
the best hard score (ties broken by earliest iteration, the records being
listed in iteration order).  Groups tied on votes are ranked by their best
hard score, as the repository's consensus tests require. -/
def selectConsensusWinner (rs : List IterationResult) : Option IterationResult :=
  argmaxBy (fun r => toLex (groupVotes rs (solutionKey r), scoreVal r)) rs

/-! ## Claim C1 — iteration bases -/

/-- C1: the claim says the workspace for iteration n (n > 1) is materialized
with iteration n−1's branch as its base.  The code does not do this:
`setupWorktree` (tools.ts line 117) calls `createWorktree(branchName)` with
no base argument, so `baseBranch` always defaults to `"main"`
(worktree-manager.ts line 19) — for every session and every iteration,
including iteration 2, whose base per the claim (and per ROADMAP.md's
completed "Fix 2") should be `finsliparn/s/iteration-1`. -/
theorem c1_worktree_base_always_main :
    (∀ projectRoot sessionId : String, ∀ iteration : ℕ,
       (setupWorktreeCreateCmd projectRoot sessionId iteration).baseBranch = "main") ∧
    (setupWorktreeCreateCmd "." "s" 2).baseBranch ≠ iterationBranchName "s" 1 ∧
    iterationBranchName "s" 1 = "finsliparn/s/iteration-1" := by
  refine ⟨fun _ _ _ => rfl, ?_, rfl⟩
  decide

/-! ## Claim C8 — complexity classification and complexity score -/

/-- C8 counterexample: the claim says the separate complexity score "is
always within 0-100" and carries the same 10-points-per-file-beyond-five
spread penalty.  At 500 changed lines across 10 files the code computes
`round(min(500,500)×0.15 + min(10×5,50)) = 125 > 100`. -/
theorem c8_counterexample :
    calculateComplexityScore 500 10 = 125 ∧ ¬ calculateComplexityScore 500 10 ≤ 100 := by
  have h : calculateComplexityScore 500 10 = 125 := by
    norm_num [calculateComplexityScore, jsRound]
  rw [h]
  refine ⟨rfl, by decide⟩

/-- C8 (amended): the low/≤50, medium/≤150, high/>150 classification over
total changed lines plus the 10-per-file-beyond-five spread penalty holds as
claimed; the separate complexity score, however, is
`round(min(totalChanges,500)×0.15 + min(fileCount×5,50))` — a capped
5-points-per-file spread, not 10 beyond the fifth — and lies within
[0, 125], not [0, 100]. -/
theorem c8_amended :
    (∀ c f : ℕ,
      (calculateComplexity c f = Complexity.low ↔
        c + (if 5 < f then (f - 5) * 10 else 0) ≤ 50) ∧
      (calculateComplexity c f = Complexity.medium ↔
        50 < c + (if 5 < f then (f - 5) * 10 else 0) ∧
          c + (if 5 < f then (f - 5) * 10 else 0) ≤ 150) ∧
      (calculateComplexity c f = Complexity.high ↔
        150 < c + (if 5 < f then (f - 5) * 10 else 0))) ∧
    (∀ c f : ℕ,
      0 ≤ calculateComplexityScore c f ∧ calculateComplexityScore c f ≤ 125) := by
  constructor
  · intro c f
    simp only [calculateComplexity, lowComplexityThreshold, mediumComplexityThreshold]
    split_ifs with h1 h2 h3 <;> refine ⟨?_, ?_, ?_⟩ <;> simp_all <;> omega
  · intro c f
    simp only [calculateComplexityScore, jsRound]
    have h1 : ((min c 500 : ℕ) : ℚ) ≤ 500 := by
      exact_mod_cast min_le_right c 500
    have h1' : (0 : ℚ) ≤ ((min c 500 : ℕ) : ℚ) := by positivity
    have h2 : ((min (f * 5) 50 : ℕ) : ℚ) ≤ 50 := by
      exact_mod_cast min_le_right (f * 5) 50
    have h2' : (0 : ℚ) ≤ ((min (f * 5) 50 : ℕ) : ℚ) := by positivity
    constructor
    · refine Int.le_floor.mpr ?_
      rw [Int.cast_zero]
      positivity
    · have hq : ((min c 500 : ℕ) : ℚ) * (15/100) + ((min (f * 5) 50 : ℕ) : ℚ) + 1/2
          < ((126 : ℤ) : ℚ) := by
        have h126 : ((126 : ℤ) : ℚ) = 126 := by norm_num
        rw [h126]
        nlinarith
      have hlt := Int.floor_lt.mpr hq
      omega

/-! ## Claim C10 — minimal_diff strategy -/

/-- Concrete record: failing iteration with the smaller diff (7 lines). -/
def c10iter1 : IterationResult :=
  { iteration := 1, status := .completed, score := some 50,
    diff := some { filesChanged := ["a.ts"], insertions := 5, deletions := 2,
                   complexity := .low, complexityScore := 10 } }

/-- Concrete record: passing iteration with the larger diff (70 lines). -/
def c10iter2 : IterationResult :=
  { iteration := 2, status := .completed, score := some 100,
    diff := some { filesChanged := ["a.ts", "b.ts"], insertions := 50, deletions := 20,
                   complexity := .medium, complexityScore := 40 } }

/-- Concrete session holding the two records of the claim's example. -/
def c10session : RefinementSession :=
  { id := "s", status := .iterating, maxIterations := 5, currentIteration := 2,
    iterations := [c10iter1, c10iter2] }

/-- C10: `minimal_diff` restricts to the perfect-score set when nonempty,
else falls back to the whole completed set, and minimizes
insertions+deletions within the chosen set; on
`[{score:50, diff:7}, {score:100, diff:70}]` the vote selects the score-100
iteration 2, not the smaller diff. -/
theorem c10_minimal_diff :
    (∀ completedIterations passingIterations : List IterationResult, ∀ w,
      selectMinimalDiffWinner completedIterations passingIterations = some w →
        (0 < passingIterations.length →
          w ∈ passingIterations ∧ ∀ y ∈ passingIterations, diffSize w ≤ diffSize y) ∧
        (passingIterations.length = 0 →
          w ∈ completedIterations ∧ ∀ y ∈ completedIterations, diffSize w ≤ diffSize y)) ∧
    finslipaVote "s" .minimal_diff false (some c10session) =
      (.ok 2 (some 100) "minimal_diff",
       [.loadSession "s", .updateStatus "s" .evaluating]) := by
  constructor
  · intro completedIterations passingIterations w h
    constructor
    · intro hpos
      rw [selectMinimalDiffWinner, if_pos hpos] at h
      exact ⟨argminBy_mem _ _ _ h, argminBy_le _ _ _ h⟩
    · intro hzero
      have hneg : ¬ 0 < passingIterations.length := by omega
      rw [selectMinimalDiffWinner, if_neg hneg] at h
      exact ⟨argminBy_mem _ _ _ h, argminBy_le _ _ _ h⟩
  · decide

/-- Witness for C10: the theorem applied to the claim's concrete example:
the passing set `[iteration 2]` is nonempty, so the winner is its unique
member (score 100), never the smaller failing diff. -/
theorem c10_minimal_diff_witness :
    selectMinimalDiffWinner [c10iter1, c10iter2] [c10iter2] = some c10iter2 ∧
    (c10iter2 ∈ [c10iter2] ∧ ∀ y ∈ [c10iter2], diffSize c10iter2 ≤ diffSize y) :=
  ⟨by decide,
   (c10_minimal_diff.1 [c10iter1, c10iter2] [c10iter2] c10iter2 (by decide)).1 (by decide)⟩

/-! ## Claim C3 — consensus strategy -/

/-- Concrete record: output "A", score 80, iteration 1. -/
def c3recA80 : IterationResult :=
  { iteration := 1, status := .completed, score := some 80,
    solution := some { code := "A", feedback := "", score := 80 } }

/-- Concrete record: output "A", score 85, iteration 2. -/
def c3recA85 : IterationResult :=
  { iteration := 2, status := .completed, score := some 85,
    solution := some { code := "A", feedback := "", score := 85 } }

/-- Concrete record: output "B", score 90, iteration 3. -/
def c3recB90 : IterationResult :=
  { iteration := 3, status := .completed, score := some 90,
    solution := some { code := "B", feedback := "", score := 90 } }

/-- C3: consensus groups completed attempts by exact equality of the
recorded solution snapshot, counts each group's votes as its size, selects
a group with the most votes, and returns that group's member with the best
hard score; in particular on
`[{out:"A",score:80},{out:"A",score:85},{out:"B",score:90}]` it selects the
score-85 "A" record, not the score-90 "B" record. -/
theorem c3_consensus :
    (∀ rs : List IterationResult, ∀ w, selectConsensusWinner rs = some w →
      w ∈ rs ∧
      (∀ r ∈ rs, groupVotes rs (solutionKey r) ≤ groupVotes rs (solutionKey w)) ∧
      (∀ r ∈ rs, solutionKey r = solutionKey w → scoreVal r ≤ scoreVal w)) ∧
    selectConsensusWinner [c3recA80, c3recA85, c3recB90] = some c3recA85 := by
  constructor
  · intro rs w h
    refine ⟨argmaxBy_mem _ rs w h, ?_, ?_⟩
    · intro r hr
      have hle := argmaxBy_le _ rs w h r hr
      rcases (Prod.Lex.le_iff _ _).mp hle with hlt | ⟨heq, _⟩
      · exact le_of_lt hlt
      · exact le_of_eq heq
    · intro r hr hkey
      have hle := argmaxBy_le _ rs w h r hr
      rcases (Prod.Lex.le_iff _ _).mp hle with hlt | ⟨_, hsc⟩
      · rw [hkey] at hlt
        exact absurd hlt (lt_irrefl _)
      · exact hsc
  · decide

/-- Witness for C3: the theorem applied at the claim's concrete input — the
winner is a member, its group's vote count (2, for "A") is maximal, and its
score (85) is maximal within its group. -/
theorem c3_consensus_witness :
    selectConsensusWinner [c3recA80, c3recA85, c3recB90] = some c3recA85 ∧
    (c3recA85 ∈ [c3recA80, c3recA85, c3recB90] ∧
     (∀ r ∈ [c3recA80, c3recA85, c3recB90],
        groupVotes [c3recA80, c3recA85, c3recB90] (solutionKey r) ≤
          groupVotes [c3recA80, c3recA85, c3recB90] (solutionKey c3recA85)) ∧
     (∀ r ∈ [c3recA80, c3recA85, c3recB90],
        solutionKey r = solutionKey c3recA85 → scoreVal r ≤ scoreVal c3recA85)) :=
  ⟨by decide, c3_consensus.1 [c3recA80, c3recA85, c3recB90] c3recA85 (by decide)⟩

/-! ## Claim C5 — lock acquisition, staleness, retry/timeout, scoped release -/

theorem withLockGo_timeout (l : LockInfo) (pid : ℕ) (start : ℤ)
    {ε α : Type} (op : Except ε α)
    (hfresh : ∀ j : ℕ, 100 * (j : ℤ) < LOCK_TIMEOUT →
      start + 100 * j - l.timestamp < LOCK_STALE_THRESHOLD) :
    ∀ fuel k : ℕ, withLockGo (some l) pid start op fuel k =
      { outcome := .lockTimeout, lockState := some l } := by
  intro fuel
  induction fuel with
  | zero => intro k; rfl
  | succ n ih =>
      intro k
      simp only [withLockGo]
      split
      · next hcond =>
          have hacq : acquireLock (some l) pid (start + 100 * k) = .lockedBy l.pid := by
            simp only [acquireLock]
            rw [if_pos (by have := hfresh k hcond; omega)]
          rw [hacq]
          exact ih (k + 1)
      · rfl

theorem withLockGo_release (lock0 : Option LockInfo) (pid : ℕ) (start : ℤ)
    {ε α : Type} (op : Except ε α) :
    ∀ fuel k : ℕ,
      (withLockGo lock0 pid start op fuel k).lockState = none ∨
      ((withLockGo lock0 pid start op fuel k).outcome = LockOutcome.lockTimeout ∧
       (withLockGo lock0 pid start op fuel k).lockState = lock0) := by
  intro fuel
  induction fuel with
  | zero => intro k; right; exact ⟨rfl, rfl⟩
  | succ n ih =>
      intro k
      simp only [withLockGo]
      split
      · cases hacq : acquireLock lock0 pid (start + 100 * k) with
        | acquired nl =>
            cases op with
            | ok a => left; rfl
            | error e => left; rfl
        | lockedBy p => exact ih (k + 1)
      · right; exact ⟨rfl, rfl⟩

/-- C5: (a) an existing lock marker younger than the staleness threshold
makes acquisition fail immediately; (b) a marker at or past the threshold is
discarded and acquisition proceeds, writing the new owner marker; (c) a
caller contending with a lock that stays fresh throughout the retry window
retries with 100 ms backoff and then fails with the lock-timeout error,
leaving the foreign lock in place; (d) once acquired, the lock is released
on every exit path — the final lock state is `none` both when the operation
returns and when it throws; only the lock-timeout path (which never
acquired) leaves the lock file as it found it. -/
theorem c5_lock :
    (∀ (l : LockInfo) (pid : ℕ) (now : ℤ),
       now - l.timestamp < LOCK_STALE_THRESHOLD →
       acquireLock (some l) pid now = .lockedBy l.pid) ∧
    (∀ (l : LockInfo) (pid : ℕ) (now : ℤ),
       LOCK_STALE_THRESHOLD ≤ now - l.timestamp →
       acquireLock (some l) pid now = .acquired { pid := pid, timestamp := now }) ∧
    (∀ (l : LockInfo) (pid : ℕ) (start : ℤ) (ε α : Type) (op : Except ε α),
       start + 29900 - l.timestamp < LOCK_STALE_THRESHOLD →
       withLock (some l) pid start op =
         { outcome := .lockTimeout, lockState := some l }) ∧
    (∀ (lock0 : Option LockInfo) (pid : ℕ) (start : ℤ) (ε α : Type) (op : Except ε α),
       (withLock lock0 pid start op).lockState = none ∨
       ((withLock lock0 pid start op).outcome = LockOutcome.lockTimeout ∧
        (withLock lock0 pid start op).lockState = lock0)) := by
  refine ⟨?_, ?_, ?_, ?_⟩
  · intro l pid now h
    simp only [acquireLock]
    rw [if_pos h]
  · intro l pid now h
    simp only [acquireLock]
    rw [if_neg (by omega)]
  · intro l pid start ε α op h
    refine withLockGo_timeout l pid start op ?_ 301 0
    intro j hj
    have hj300 : (j : ℤ) ≤ 299 := by
      simp only [LOCK_TIMEOUT] at hj
      omega
    omega
  · intro lock0 pid start ε α op
    exact withLockGo_release lock0 pid start op 301 0

/-- Witness for C5: the theorem applied at concrete inputs — a 100 ms old
marker blocks pid 2; a 60 s old marker is discarded; pid 2 times out against
a lock held (fresh) by pid 1 for the whole window; and release happens even
when the enclosed operation throws. -/
theorem c5_lock_witness :
    acquireLock (some { pid := 1, timestamp := 0 }) 2 100 = .lockedBy 1 ∧
    acquireLock (some { pid := 1, timestamp := 0 }) 2 60000 =
      .acquired { pid := 2, timestamp := 60000 } ∧
    withLock (some { pid := 1, timestamp := 0 }) 2 0 ((Except.ok 42 : Except Unit ℕ)) =
      { outcome := .lockTimeout, lockState := some { pid := 1, timestamp := 0 } } ∧
    ((withLock (none : Option LockInfo) 2 0 ((Except.error () : Except Unit ℕ))).lockState = none ∨
     ((withLock (none : Option LockInfo) 2 0 ((Except.error () : Except Unit ℕ))).outcome =
        LockOutcome.lockTimeout ∧
      (withLock (none : Option LockInfo) 2 0 ((Except.error () : Except Unit ℕ))).lockState = none)) :=
  ⟨c5_lock.1 { pid := 1, timestamp := 0 } 2 100 (by norm_num [LOCK_STALE_THRESHOLD]),
   c5_lock.2.1 { pid := 1, timestamp := 0 } 2 60000 (by norm_num [LOCK_STALE_THRESHOLD]),
   c5_lock.2.2.1 { pid := 1, timestamp := 0 } 2 0 Unit ℕ (Except.ok 42)
     (by norm_num [LOCK_STALE_THRESHOLD]),
   c5_lock.2.2.2 none 2 0 Unit ℕ (Except.error ())⟩

/-! ## Claim C7 — hard score formula -/

/-- C7: with the default weights, the hard score is exactly
`round(passRate − round(complexityScore × 0.1))` clamped to [0,100], where
`passRate = (passed/total) × 100` (0 when `total = 0`, matching `ℚ`'s
division by zero); the "Failing tests" entry recorded in the breakdown never
alters the score.  And whenever `failed = 0` with at least one test — with
`total = passed + failed` as every runner-produced outcome has — the score
before the complexity penalty is exactly 100.  The hypothesis
`0 ≤ complexityScore` holds for every analyzer-produced diff (see the bounds
part of the complexity-score theorem). -/
theorem c7_hard_score :
    (∀ (tr : TestResults) (d : DiffAnalysis), 0 ≤ d.complexityScore →
       (calculateScore DEFAULT_WEIGHTS tr (some d)).score =
         max 0 (min 100 (jsRound (((tr.passed : ℚ) / (tr.total : ℚ)) * 100 -
           ((jsRound ((d.complexityScore : ℚ) * (1/10)) : ℤ) : ℚ))))) ∧
    (∀ tr : TestResults,
       tr.failed = 0 → tr.total = tr.passed + tr.failed → 0 < tr.total →
       calculatePassRate tr = 100) := by
  constructor
  · intro tr d hcs
    have hcd : 0 ≤ jsRound ((d.complexityScore : ℚ) * (1/10)) := by
      refine Int.le_floor.mpr ?_
      rw [Int.cast_zero]
      have : (0 : ℚ) ≤ (d.complexityScore : ℚ) := by exact_mod_cast hcs
      nlinarith
    have hrate : calculatePassRate tr = ((tr.passed : ℚ) / (tr.total : ℚ)) * 100 := by
      simp only [calculatePassRate]
      split
      · next h0 => rw [h0]; norm_num
      · rfl
    simp only [calculateScore, DEFAULT_WEIGHTS, hrate]
    have hpen : (if 0 < jsRound ((d.complexityScore : ℚ) * (1/10)) then
        jsRound ((d.complexityScore : ℚ) * (1/10)) else 0) =
        jsRound ((d.complexityScore : ℚ) * (1/10)) := by
      split
      · rfl
      · omega
    rw [hpen, mul_one]
  · intro tr h0 htot hpos
    simp only [calculatePassRate]
    rw [if_neg (by omega)]
    have hpt : tr.total = tr.passed := by omega
    rw [hpt]
    have hne : ((tr.passed : ℚ)) ≠ 0 := by
      have : tr.passed ≠ 0 := by omega
      exact_mod_cast this
    rw [div_self hne, one_mul]

/-- Witness for C7: the theorem applied at a concrete all-passing run (5/5)
with a complexity score of 40: the score is
`max 0 (min 100 (round(100 − round(4)))) ` and the pre-penalty rate is
exactly 100. -/
theorem c7_hard_score_witness :
    (calculateScore DEFAULT_WEIGHTS
        { framework := "bun", passed := 5, failed := 0, total := 5, duration := 0,
          failures := [] }
        (some { filesChanged := ["a.ts"], insertions := 20, deletions := 10,
                complexity := .low, complexityScore := 40 })).score =
      max 0 (min 100 (jsRound (((5 : ℚ) / (5 : ℚ)) * 100 -
        ((jsRound ((40 : ℚ) * (1/10)) : ℤ) : ℚ)))) ∧
    calculatePassRate
        { framework := "bun", passed := 5, failed := 0, total := 5, duration := 0,
          failures := [] } = 100 :=
  ⟨c7_hard_score.1
      { framework := "bun", passed := 5, failed := 0, total := 5, duration := 0,
        failures := [] }
      { filesChanged := ["a.ts"], insertions := 20, deletions := 10,
        complexity := .low, complexityScore := 40 }
      (by norm_num),
   c7_hard_score.2
      { framework := "bun", passed := 5, failed := 0, total := 5, duration := 0,
        failures := [] }
      rfl rfl (by norm_num)⟩

/-! ## Branch analysis of the operation traces -/

theorem checkBody_not_found (numParse : String → Option ℚ) (jsonParse : String → Option Json)
    (sid : String) (uw : Bool) (wt : WorktreeSetup) (run : TestRunOutcome) :
    checkBody numParse jsonParse sid uw none wt run =
      (.failure "SESSION_NOT_FOUND", [.loadSession sid]) := rfl

theorem checkBody_cap (numParse : String → Option ℚ) (jsonParse : String → Option Json)
    (sid : String) (uw : Bool) (session : RefinementSession) (wt : WorktreeSetup)
    (run : TestRunOutcome) (h : session.maxIterations ≤ session.currentIteration) :
    checkBody numParse jsonParse sid uw (some session) wt run =
      (.failure "MAX_ITERATIONS_REACHED",
       [.loadSession sid, .updateStatus sid .failed]) := by
  simp only [checkBody]
  rw [if_pos h]

theorem checkBody_wt_failed (numParse : String → Option ℚ) (jsonParse : String → Option Json)
    (sid : String) (uw : Bool) (session : RefinementSession) (wt : WorktreeSetup)
    (run : TestRunOutcome) (hcap : ¬ session.maxIterations ≤ session.currentIteration)
    (hwt : (uw && wt.failedSetup) = true) :
    checkBody numParse jsonParse sid uw (some session) wt run =
      (.failure "WORKTREE_CREATION_FAILED",
       [.loadSession sid, .updateStatus sid .iterating]) := by
  simp only [checkBody]
  rw [if_neg hcap, if_pos hwt]

theorem checkBody_crashed (numParse : String → Option ℚ) (jsonParse : String → Option Json)
    (sid : String) (uw : Bool) (session : RefinementSession) (wt : WorktreeSetup)
    (err : String) (hcap : ¬ session.maxIterations ≤ session.currentIteration)
    (hwt : (uw && wt.failedSetup) = false) :
    checkBody numParse jsonParse sid uw (some session) wt (.crashed err) =
      (.failure "TEST_RUN_FAILED",
       [.loadSession sid, .updateStatus sid .iterating]) := by
  simp only [checkBody]
  rw [if_neg hcap, if_neg (by rw [hwt]; exact Bool.false_ne_true)]

theorem checkBody_no_tests (numParse : String → Option ℚ) (jsonParse : String → Option Json)
    (sid : String) (uw : Bool) (session : RefinementSession) (wt : WorktreeSetup)
    (results : TestResults) (d : DiffAnalysis) (raw : String)
    (hcap : ¬ session.maxIterations ≤ session.currentIteration)
    (hwt : (uw && wt.failedSetup) = false) (htot : results.total = 0) :
    checkBody numParse jsonParse sid uw (some session) wt (.ran results d raw) =
      (.failure "NO_TESTS_DETECTED",
       [.loadSession sid, .updateStatus sid .iterating]) := by
  have hrt : runTestPhase numParse jsonParse results d raw = .error "NO_TESTS_DETECTED" := by
    simp only [runTestPhase]
    rw [if_pos htot]
  simp only [checkBody]
  rw [if_neg hcap, if_neg (by rw [hwt]; exact Bool.false_ne_true), hrt]

theorem checkBody_success (numParse : String → Option ℚ) (jsonParse : String → Option Json)
    (sid : String) (uw : Bool) (session : RefinementSession) (wt : WorktreeSetup)
    (results : TestResults) (d : DiffAnalysis) (raw : String)
    (hcap : ¬ session.maxIterations ≤ session.currentIteration)
    (hwt : (uw && wt.failedSetup) = false) (htot : results.total ≠ 0) :
    ∃ (record : IterationResult) (score : ℤ),
      checkBody numParse jsonParse sid uw (some session) wt (.ran results d raw) =
        (.ok results.passed results.failed results.total score,
         [.loadSession sid, .updateStatus sid .iterating,
          .addIteration sid record,
          .updateBestResult sid (session.currentIteration + 1) score] ++
         (if results.failed = 0 ∧ 0 < results.total then
            [Event.updateStatus sid .completed]
          else []) ++
         [.loadSession sid, .loadSession sid, .writeDirective]) := by
  have hrt : runTestPhase numParse jsonParse results d raw =
      .ok { testResults :=
              { results with
                  softScore := some (calculateTestResultsSoftScore numParse jsonParse results) }
            diffAnalysis := d, rawDiff := raw } := by
    simp only [runTestPhase]
    rw [if_neg htot]
  exact ⟨_, _, by
    simp only [checkBody]
    rw [if_neg hcap, if_neg (by rw [hwt]; exact Bool.false_ne_true), hrt]
    simp only [persistIterationEvents, List.append_assoc, List.cons_append, List.nil_append]
    rfl⟩

theorem vote_trace (sid : String) (strategy : VoteStrategy) (returnBest : Bool)
    (sess : Option RefinementSession) :
    (finslipaVote sid strategy returnBest sess).2 = [.loadSession sid] ∨
    (finslipaVote sid strategy returnBest sess).2 =
      [.loadSession sid, .updateStatus sid .evaluating] := by
  rcases sess with _ | session
  · left; rfl
  · simp only [finslipaVote]
    split
    · left; rfl
    · split
      · right; rfl
      · split
        · left; rfl
        · split
          · right; rfl
          · left; rfl

theorem cancel_trace (sid : String) (sess : Option RefinementSession) :
    (finslipaCancel sid sess).2 = [.loadSession sid] ∨
    ∃ cleanup : List Event,
      (finslipaCancel sid sess).2 =
        Event.loadSession sid :: cleanup ++
          [Event.updateStatus sid .cancelled, Event.writeDirective] ∧
      ∀ ev ∈ cleanup, ∃ b, ev = Event.deleteWorktree b := by
  rcases sess with _ | session
  · left; rfl
  · simp only [finslipaCancel]
    split
    · left; rfl
    · right
      refine ⟨_, rfl, ?_⟩
      intro ev hev
      rcases List.mem_map.mp hev with ⟨it, _, hit⟩
      exact ⟨_, hit.symm⟩

theorem merge_trace (sid : String) (iterationNumber : Option ℕ)
    (sess : Option RefinementSession) (gitOk : Bool) :
    (finslipaMerge sid iterationNumber sess gitOk).2 = [.loadSession sid] ∨
    (∃ b, (finslipaMerge sid iterationNumber sess gitOk).2 =
      [.loadSession sid, .gitMerge b, .deleteWorktree b, .updateStatus sid .completed]) ∨
    (finslipaMerge sid iterationNumber sess gitOk).2 =
      [.loadSession sid, .updateStatus sid .completed] := by
  rcases sess with _ | session
  · left; rfl
  · simp only [finslipaMerge]
    split
    · left; rfl
    · split
      · left; rfl
      · split
        · left; rfl
        · split
          · split
            · right; left; exact ⟨_, rfl⟩
            · left; rfl
          · right; right; rfl

theorem checkBody_no_lock (numParse : String → Option ℚ) (jsonParse : String → Option Json)
    (sid : String) (uw : Bool) (sess : Option RefinementSession) (wt : WorktreeSetup)
    (run : TestRunOutcome) :
    ∀ ev ∈ (checkBody numParse jsonParse sid uw sess wt run).2, ev.isLockEvent = false := by
  rcases sess with _ | session
  · rw [checkBody_not_found]
    intro ev hev
    simp only [List.mem_singleton] at hev
    subst hev
    rfl
  · by_cases hcap : session.maxIterations ≤ session.currentIteration
    · rw [checkBody_cap numParse jsonParse sid uw session wt run hcap]
      intro ev hev
      simp only [List.mem_cons, List.not_mem_nil, or_false] at hev
      rcases hev with rfl | rfl <;> rfl
    · by_cases hwt : (uw && wt.failedSetup) = true
      · rw [checkBody_wt_failed numParse jsonParse sid uw session wt run hcap hwt]
        intro ev hev
        simp only [List.mem_cons, List.not_mem_nil, or_false] at hev
        rcases hev with rfl | rfl <;> rfl
      · have hwt' : (uw && wt.failedSetup) = false := by
          rwa [Bool.not_eq_true] at hwt
        rcases run with ⟨results, d, raw⟩ | err
        · by_cases htot : results.total = 0
          · rw [checkBody_no_tests numParse jsonParse sid uw session wt results d raw
                  hcap hwt' htot]
            intro ev hev
            simp only [List.mem_cons, List.not_mem_nil, or_false] at hev
            rcases hev with rfl | rfl <;> rfl
          · obtain ⟨record, score, heq⟩ :=
              checkBody_success numParse jsonParse sid uw session wt results d raw
                hcap hwt' htot
            rw [heq]
            intro ev hev
            simp only [List.mem_append, List.mem_cons, List.not_mem_nil, or_false] at hev
            rcases hev with ((rfl | rfl | rfl | rfl) | hif) | (rfl | rfl | rfl)
            · rfl
            · rfl
            · rfl
            · rfl
            · by_cases hall : results.failed = 0 ∧ 0 < results.total
              · rw [if_pos hall] at hif
                simp only [List.mem_singleton] at hif
                subst hif
                rfl
              · rw [if_neg hall] at hif
                simp at hif
            · rfl
            · rfl
            · rfl
        · rw [checkBody_crashed numParse jsonParse sid uw session wt err hcap hwt']
          intro ev hev
          simp only [List.mem_cons, List.not_mem_nil, or_false] at hev
          rcases hev with rfl | rfl <;> rfl

theorem wellLocked_append_release (sid : String) :
    ∀ (evs : List Event) (depth : ℕ), depth ≠ 0 →
      (∀ ev ∈ evs, ev.isLockEvent = false) →
      wellLocked depth (evs ++ [Event.releaseLock sid]) = true := by
  intro evs
  induction evs with
  | nil =>
      intro depth hd _
      rfl
  | cons ev rest ih =>
      intro depth hd hall
      have hev := hall ev (List.mem_cons_self ev rest)
      have hrest : ∀ e ∈ rest, e.isLockEvent = false :=
        fun e he => hall e (List.mem_cons_of_mem ev he)
      have hdz : (depth == 0) = false := by
        simp [hd]
      cases ev <;> simp only [Event.isLockEvent] at hev <;>
        first
          | exact Bool.noConfusion hev
          | simp [wellLocked, Event.mutatesSession, hdz, ih depth hd hrest]

/-! ## Claim C2 — locking of the mutating operations -/

/-- Concrete session for the C2 counterexample: one completed, scored
iteration; status `iterating`. -/
def c2session : RefinementSession :=
  { id := "s", status := .iterating, maxIterations := 5, currentIteration := 1,
    iterations := [{ iteration := 1, status := .completed, score := some 50 }] }

/-- C2 counterexample: the claim says vote (like validate, finalize and
cancel) performs its read-modify-write only inside the Session Store's
advisory lock.  But `finslipaVote` on a concrete session performs
`loadSession` followed by `updateSessionStatus` with no lock event at all —
a session mutation at lock depth 0. -/
theorem c2_counterexample :
    (finslipaVote "s" .highest_score false (some c2session)).2 =
      [.loadSession "s", .updateStatus "s" .evaluating] ∧
    wellLocked 0 (finslipaVote "s" .highest_score false (some c2session)).2 = false := by
  constructor
  · decide
  · decide

/-- C2 (amended): only validate (`finslipaCheck`) wraps its
read-modify-write in the Session Store's advisory lock — its whole trace is
well-locked for every input, and when the lock cannot be acquired it
performs no session event at all.  Vote (`finslipaVote`), cancel
(`finslipaCancel`) and finalize (`finslipaMerge`) run directly against the
store: their traces never contain a lock event, so their mutations are not
serialized by the session lock. -/
theorem c2_amended :
    (∀ (numParse : String → Option ℚ) (jsonParse : String → Option Json)
       (sid : String) (uw : Bool) (sess : Option RefinementSession)
       (wt : WorktreeSetup) (run : TestRunOutcome) (lockAcquired : Bool),
       wellLocked 0 (finslipaCheck numParse jsonParse sid uw sess wt run lockAcquired).2 =
         true) ∧
    (∀ (sid : String) (strategy : VoteStrategy) (returnBest : Bool)
       (sess : Option RefinementSession),
       ∀ ev ∈ (finslipaVote sid strategy returnBest sess).2, ev.isLockEvent = false) ∧
    (∀ (sid : String) (sess : Option RefinementSession),
       ∀ ev ∈ (finslipaCancel sid sess).2, ev.isLockEvent = false) ∧
    (∀ (sid : String) (iterationNumber : Option ℕ) (sess : Option RefinementSession)
       (gitOk : Bool),
       ∀ ev ∈ (finslipaMerge sid iterationNumber sess gitOk).2, ev.isLockEvent = false) := by
  refine ⟨?_, ?_, ?_, ?_⟩
  · intro numParse jsonParse sid uw sess wt run lockAcquired
    cases lockAcquired with
    | false => rfl
    | true =>
        show wellLocked 0 (Event.acquireLock sid ::
          (checkBody numParse jsonParse sid uw sess wt run).2 ++ [Event.releaseLock sid]) = true
        show wellLocked 1
          ((checkBody numParse jsonParse sid uw sess wt run).2 ++ [Event.releaseLock sid]) = true
        exact wellLocked_append_release sid _ 1 (by omega)
          (checkBody_no_lock numParse jsonParse sid uw sess wt run)
  · intro sid strategy returnBest sess ev hev
    rcases vote_trace sid strategy returnBest sess with h | h <;> rw [h] at hev <;>
      simp only [List.mem_cons, List.mem_singleton, List.not_mem_nil, or_false] at hev
    · subst hev; rfl
    · rcases hev with rfl | rfl <;> rfl
  · intro sid sess ev hev
    rcases cancel_trace sid sess with h | ⟨cleanup, h, hcl⟩
    · rw [h] at hev
      simp only [List.mem_singleton] at hev
      subst hev
      rfl
    · rw [h] at hev
      rcases List.mem_cons.mp hev with rfl | hev2
      · rfl
      · rcases List.mem_append.mp hev2 with hin | hin
        · obtain ⟨b, rfl⟩ := hcl ev hin
          rfl
        · simp only [List.mem_cons, List.not_mem_nil, or_false] at hin
          rcases hin with rfl | rfl <;> rfl
  · intro sid iterationNumber sess gitOk ev hev
    rcases merge_trace sid iterationNumber sess gitOk with h | ⟨b, h⟩ | h <;> rw [h] at hev <;>
      simp only [List.mem_cons, List.mem_singleton, List.not_mem_nil, or_false] at hev
    · subst hev; rfl
    · rcases hev with rfl | rfl | rfl | rfl <;> rfl
    · rcases hev with rfl | rfl <;> rfl

/-- C2, witness: the first part of the amended statement applied at a
concrete check run (whose whole trace is well-locked) and the second part at
the first event of a concrete vote trace (which is no lock event). -/
theorem c2_amended_witness :
    wellLocked 0 (finslipaCheck (fun _ => none) (fun _ => none) "s" true none
      (.reused "p") (.crashed "x") true).2 = true ∧
    Event.isLockEvent (.loadSession "s") = false :=
  ⟨c2_amended.1 (fun _ => none) (fun _ => none) "s" true none
     (.reused "p") (.crashed "x") true,
   c2_amended.2.1 "s" .highest_score false (some c2session)
     (.loadSession "s") (by decide)⟩


/-! ## Claim C4 — the status state machine -/

/-- Concrete session for the C4 counterexample: already `completed`
(terminal per the claim) after a perfect first iteration, cap not reached. -/
def c4session : RefinementSession :=
  { id := "s", status := .completed, maxIterations := 5, currentIteration := 1,
    iterations := [{ iteration := 1, status := .completed, score := some 100 }] }

/-- C4 counterexample: the claim makes `completed` terminal, but a further
validate call on a completed session (cap not reached) writes status
`iterating` — the transition `completed → iterating` is not an edge of the
claimed state machine, so the trace violates it. -/
theorem c4_counterexample :
    (checkBody (fun _ => none) (fun _ => none) "s" true (some c4session)
        (.reused "p") (.crashed "boom")).2 =
      [.loadSession "s", .updateStatus "s" .iterating] ∧
    followsClaimMachine SessionStatus.completed
      (checkBody (fun _ => none) (fun _ => none) "s" true (some c4session)
        (.reused "p") (.crashed "boom")).2 = false := by
  constructor
  · decide
  · decide

theorem statusWrites_map_delete (f : IterationResult → String) :
    ∀ l : List IterationResult,
      statusWrites (l.map fun it => Event.deleteWorktree (f it)) = [] := by
  intro l
  induction l with
  | nil => rfl
  | cons x xs ih =>
      simp only [List.map_cons, statusWrites, List.filterMap_cons] at ih ⊢
      exact ih

theorem statusWrites_append (a b : List Event) :
    statusWrites (a ++ b) = statusWrites a ++ statusWrites b := by
  simp [statusWrites, List.filterMap_append]

/-- C4 (amended): `updateSessionStatus` enforces no transition guard, so the
status writes are determined by control flow alone, from any starting
status (terminal states included — see the counterexample): a validate
writes `failed` whenever the cap is exhausted, and otherwise writes
`iterating` followed by `completed` exactly when the appended AttemptRecord
has all tests passing (`failed = 0` and `total > 0` — not a perfect *score*:
a complexity penalty may leave the score below 100); the per-branch failure
paths stop after `iterating`.  Vote writes at most `evaluating`; cancel
writes `cancelled` unless the session is already completed/cancelled (it
does cancel `failed` sessions); finalize writes at most `completed`. -/
theorem c4_amended :
    (∀ (numParse : String → Option ℚ) (jsonParse : String → Option Json)
       (sid : String) (uw : Bool) (session : RefinementSession) (wt : WorktreeSetup)
       (run : TestRunOutcome),
       session.maxIterations ≤ session.currentIteration →
       statusWrites (checkBody numParse jsonParse sid uw (some session) wt run).2 =
         [SessionStatus.failed]) ∧
    (∀ (numParse : String → Option ℚ) (jsonParse : String → Option Json)
       (sid : String) (uw : Bool) (session : RefinementSession) (wt : WorktreeSetup)
       (results : TestResults) (d : DiffAnalysis) (raw : String),
       ¬ session.maxIterations ≤ session.currentIteration →
       (uw && wt.failedSetup) = false →
       results.total ≠ 0 →
       statusWrites (checkBody numParse jsonParse sid uw (some session) wt
           (.ran results d raw)).2 =
         SessionStatus.iterating ::
           (if results.failed = 0 ∧ 0 < results.total then [SessionStatus.completed]
            else [])) ∧
    (∀ (sid : String) (iteration : ℕ) (record : IterationResult) (score : ℤ)
       (results : TestResults),
       statusWrites (persistIterationEvents sid iteration record score results) =
         (if results.failed = 0 ∧ 0 < results.total then [SessionStatus.completed]
          else [])) ∧
    (∀ (sid : String) (strategy : VoteStrategy) (returnBest : Bool)
       (sess : Option RefinementSession),
       statusWrites (finslipaVote sid strategy returnBest sess).2 = [] ∨
       statusWrites (finslipaVote sid strategy returnBest sess).2 =
         [SessionStatus.evaluating]) ∧
    (∀ (sid : String) (session : RefinementSession),
       (session.status = SessionStatus.completed ∨
          session.status = SessionStatus.cancelled →
        statusWrites (finslipaCancel sid (some session)).2 = []) ∧
       (¬ (session.status = SessionStatus.completed ∨
           session.status = SessionStatus.cancelled) →
        statusWrites (finslipaCancel sid (some session)).2 = [SessionStatus.cancelled])) ∧
    (∀ (sid : String) (iterationNumber : Option ℕ) (sess : Option RefinementSession)
       (gitOk : Bool),
       statusWrites (finslipaMerge sid iterationNumber sess gitOk).2 = [] ∨
       statusWrites (finslipaMerge sid iterationNumber sess gitOk).2 =
         [SessionStatus.completed]) := by
  refine ⟨?_, ?_, ?_, ?_, ?_, ?_⟩
  · intro numParse jsonParse sid uw session wt run hcap
    rw [checkBody_cap numParse jsonParse sid uw session wt run hcap]
    rfl
  · intro numParse jsonParse sid uw session wt results d raw hcap hwt htot
    obtain ⟨record, score, heq⟩ :=
      checkBody_success numParse jsonParse sid uw session wt results d raw hcap hwt htot
    rw [heq, statusWrites_append, statusWrites_append]
    by_cases hall : results.failed = 0 ∧ 0 < results.total
    · rw [if_pos hall, if_pos hall]
      rfl
    · rw [if_neg hall, if_neg hall]
      rfl
  · intro sid iteration record score results
    simp only [persistIterationEvents, statusWrites_append]
    by_cases hall : results.failed = 0 ∧ 0 < results.total
    · rw [if_pos hall, if_pos hall]
      rfl
    · rw [if_neg hall, if_neg hall]
      rfl
  · intro sid strategy returnBest sess
    rcases vote_trace sid strategy returnBest sess with h | h <;> rw [h]
    · left; rfl
    · right; rfl
  · intro sid session
    constructor
    · intro hdone
      simp only [finslipaCancel]
      rw [if_pos hdone]
      rfl
    · intro hnot
      simp only [finslipaCancel]
      rw [if_neg hnot]
      show statusWrites (Event.loadSession sid ::
        ((session.iterations.filter (fun it => it.worktreePath.isSome)).map
          (fun it => Event.deleteWorktree (iterationBranchName session.id it.iteration))) ++
        [Event.updateStatus sid .cancelled, Event.writeDirective]) = [SessionStatus.cancelled]
      have h1 : statusWrites (((session.iterations.filter
          (fun it => it.worktreePath.isSome)).map
            (fun it => Event.deleteWorktree (iterationBranchName session.id it.iteration))) ++
          [Event.updateStatus sid .cancelled, Event.writeDirective]) =
          [SessionStatus.cancelled] := by
        rw [statusWrites_append, statusWrites_map_delete]
        rfl
      simp only [statusWrites, List.filterMap_cons] at h1 ⊢
      exact h1
  · intro sid iterationNumber sess gitOk
    rcases merge_trace sid iterationNumber sess gitOk with h | ⟨b, h⟩ | h <;> rw [h]
    · left; rfl
    · right; rfl
    · right; rfl

/-- Witness for C4 (amended): the theorem applied at concrete inputs — a
cap-exhausted session writes `failed`; a successful all-passing validate
writes `iterating` then `completed`; cancelling a `failed` session writes
`cancelled`. -/
theorem c4_amended_witness :
    statusWrites (checkBody (fun _ => none) (fun _ => none) "s" false
        (some { id := "s", status := .iterating, maxIterations := 1,
                currentIteration := 1, iterations := [] })
        (.reused "p") (.crashed "x")).2 = [SessionStatus.failed] ∧
    statusWrites (checkBody (fun _ => none) (fun _ => none) "s" false
        (some { id := "s", status := .iterating, maxIterations := 5,
                currentIteration := 0, iterations := [] })
        (.reused "p")
        (.ran { framework := "bun", passed := 2, failed := 0, total := 2,
                duration := 0, failures := [] }
          { filesChanged := [], insertions := 0, deletions := 0,
            complexity := .low, complexityScore := 0 } "")).2 =
      [SessionStatus.iterating, SessionStatus.completed] ∧
    statusWrites (finslipaCancel "s"
        (some { id := "s", status := .failed, maxIterations := 5,
                currentIteration := 1, iterations := [] })).2 =
      [SessionStatus.cancelled] :=
  ⟨c4_amended.1 (fun _ => none) (fun _ => none) "s" false
      { id := "s", status := .iterating, maxIterations := 1,
        currentIteration := 1, iterations := [] }
      (.reused "p") (.crashed "x") (by decide),
   by
     have h := c4_amended.2.1 (fun _ => none) (fun _ => none) "s" false
       { id := "s", status := .iterating, maxIterations := 5,
         currentIteration := 0, iterations := [] }
       (.reused "p")
       { framework := "bun", passed := 2, failed := 0, total := 2,
         duration := 0, failures := [] }
       { filesChanged := [], insertions := 0, deletions := 0,
         complexity := .low, complexityScore := 0 } "" (by decide) rfl (by decide)
     simpa using h,
   (c4_amended.2.2.2.2.1 "s"
      { id := "s", status := .failed, maxIterations := 5,
        currentIteration := 1, iterations := [] }).2 (by simp)⟩

/-! ## Claim C6 — the no-tests condition -/

/-- C6: a test run reporting zero total tests makes `runTestPhase` fail with
`NO_TESTS_DETECTED` (never a score), and the validate step then returns that
failure having persisted nothing: its whole trace is
`[loadSession, updateStatus iterating]`, with no `addIteration` event. -/
theorem c6_no_tests :
    (∀ (numParse : String → Option ℚ) (jsonParse : String → Option Json)
       (results : TestResults) (d : DiffAnalysis) (raw : String),
       results.total = 0 →
       runTestPhase numParse jsonParse results d raw = .error "NO_TESTS_DETECTED") ∧
    (∀ (numParse : String → Option ℚ) (jsonParse : String → Option Json)
       (sid : String) (uw : Bool) (session : RefinementSession) (wt : WorktreeSetup)
       (results : TestResults) (d : DiffAnalysis) (raw : String),
       session.currentIteration < session.maxIterations →
       (uw && wt.failedSetup) = false →
       results.total = 0 →
       checkBody numParse jsonParse sid uw (some session) wt (.ran results d raw) =
         (.failure "NO_TESTS_DETECTED",
          [.loadSession sid, .updateStatus sid .iterating]) ∧
       ∀ ev ∈ (checkBody numParse jsonParse sid uw (some session) wt
           (.ran results d raw)).2, ev.isAddIteration = false) := by
  constructor
  · intro numParse jsonParse results d raw h
    simp only [runTestPhase]
    rw [if_pos h]
  · intro numParse jsonParse sid uw session wt results d raw hcap hwt htot
    have heq := checkBody_no_tests numParse jsonParse sid uw session wt results d raw
      (by omega) hwt htot
    refine ⟨heq, ?_⟩
    rw [heq]
    intro ev hev
    simp only [List.mem_cons, List.not_mem_nil, or_false] at hev
    rcases hev with rfl | rfl <;> rfl

/-- Witness for C6: the theorem applied at a concrete zero-test run against
a fresh session. -/
theorem c6_no_tests_witness :
    runTestPhase (fun _ => none) (fun _ => none)
      { framework := "bun", passed := 0, failed := 0, total := 0, duration := 0,
        failures := [] }
      { filesChanged := [], insertions := 0, deletions := 0, complexity := .low,
        complexityScore := 0 } "" = .error "NO_TESTS_DETECTED" ∧
    checkBody (fun _ => none) (fun _ => none) "s" false
        (some { id := "s", status := .iterating, maxIterations := 5,
                currentIteration := 0, iterations := [] })
        (.reused "p")
        (.ran { framework := "bun", passed := 0, failed := 0, total := 0,
                duration := 0, failures := [] }
          { filesChanged := [], insertions := 0, deletions := 0, complexity := .low,
            complexityScore := 0 } "") =
      (.failure "NO_TESTS_DETECTED", [.loadSession "s", .updateStatus "s" .iterating]) :=
  ⟨c6_no_tests.1 (fun _ => none) (fun _ => none)
      { framework := "bun", passed := 0, failed := 0, total := 0, duration := 0,
        failures := [] }
      { filesChanged := [], insertions := 0, deletions := 0, complexity := .low,
        complexityScore := 0 } "" rfl,
   (c6_no_tests.2 (fun _ => none) (fun _ => none) "s" false
      { id := "s", status := .iterating, maxIterations := 5,
        currentIteration := 0, iterations := [] }
      (.reused "p")
      { framework := "bun", passed := 0, failed := 0, total := 0, duration := 0,
        failures := [] }
      { filesChanged := [], insertions := 0, deletions := 0, complexity := .low,
        complexityScore := 0 } "" (by decide) rfl rfl).1⟩

/-! ## Claim C9 — soft score bounds -/

theorem compareStrings_bound (expected actual : String) :
    0 ≤ compareStrings expected actual ∧ compareStrings expected actual ≤ 1 := by
  simp only [compareStrings]
  split
  · norm_num
  · split
    · norm_num
    · constructor
      · exact le_max_left 0 _
      · refine max_le (by norm_num) ?_
        have hd : (0 : ℚ) ≤ (levenshteinDistance expected.toList actual.toList : ℚ) := by
          positivity
        have hm : (0 : ℚ) ≤ ((max expected.length actual.length : ℕ) : ℚ) := by
          positivity
        have := div_nonneg hd hm
        linarith

theorem numericSimilarity_bound (x y : ℚ) :
    0 ≤ max 0 (1 - |x - y| / max (max |x| |y|) 1) ∧
    max 0 (1 - |x - y| / max (max |x| |y|) 1) ≤ 1 := by
  constructor
  · exact le_max_left 0 _
  · refine max_le (by norm_num) ?_
    have hm : (1 : ℚ) ≤ max (max |x| |y|) 1 := le_max_right _ _
    have := div_nonneg (abs_nonneg (x - y)) (by linarith : (0 : ℚ) ≤ max (max |x| |y|) 1)
    linarith

theorem compareNumeric_bound (numParse : String → Option ℚ) (expected actual : String)
    (s : ℚ) (h : compareNumeric numParse expected actual = some s) : 0 ≤ s ∧ s ≤ 1 := by
  simp only [compareNumeric] at h
  split at h
  · next x y _ _ =>
      simp only [Option.some.injEq] at h
      subst h
      split
      · norm_num
      · exact numericSimilarity_bound x y
  · exact Option.noConfusion h

theorem compareArraysSum_bound (B : ℕ)
    (hB : ∀ e a : Json, sizeOf e + sizeOf a < B →
      0 ≤ compareObjects e a ∧ compareObjects e a ≤ 1) :
    ∀ xs ys : List Json, sizeOf xs + sizeOf ys ≤ B →
      0 ≤ compareArraysSum xs ys ∧
      compareArraysSum xs ys ≤ ((min xs.length ys.length : ℕ) : ℚ) := by
  intro xs
  induction xs with
  | nil =>
      intro ys h
      constructor <;> simp [compareArraysSum]
  | cons x xs ih =>
      intro ys h
      cases ys with
      | nil => constructor <;> simp [compareArraysSum]
      | cons y ys =>
          rw [compareArraysSum]
          have hxy : sizeOf x + sizeOf y < B := by
            simp only [List.cons.sizeOf_spec] at h
            omega
          have hrest : sizeOf xs + sizeOf ys ≤ B := by
            simp only [List.cons.sizeOf_spec] at h
            omega
          have hb := hB x y hxy
          have hr := ih ys hrest
          constructor
          · linarith [hb.1, hr.1]
          · simp only [List.length_cons, Nat.succ_min_succ]
            have hr2 := hr.2
            push_cast at hr2 ⊢
            linarith [hb.2, hr2]

theorem compareFieldsSum_bound (B : ℕ)
    (hB : ∀ e a : Json, sizeOf e + sizeOf a < B →
      0 ≤ compareObjects e a ∧ compareObjects e a ≤ 1) :
    ∀ (ks : List String) (e a : Json), sizeOf e + sizeOf a ≤ B →
      0 ≤ compareFieldsSum ks e a ∧
      compareFieldsSum ks e a ≤ ((ks.length : ℕ) : ℚ) := by
  intro ks
  induction ks with
  | nil =>
      intro e a _
      constructor <;> simp [compareFieldsSum]
  | cons k ks ih =>
      intro e a hsz
      have hrest := ih e a hsz
      rw [compareFieldsSum]
      constructor
      · split
        · next v1 v2 h1 h2 =>
            have hb := hB v1 v2 (by
              have t1 := sizeOf_getField_lt _ _ _ h1
              have t2 := sizeOf_getField_lt _ _ _ h2
              omega)
            linarith [hrest.1, hb.1]
        · rw [zero_add]
          exact hrest.1
      · simp only [List.length_cons]
        push_cast
        split
        · next v1 v2 h1 h2 =>
            have hb := hB v1 v2 (by
              have t1 := sizeOf_getField_lt _ _ _ h1
              have t2 := sizeOf_getField_lt _ _ _ h2
              omega)
            linarith [hrest.2, hb.2]
        · rw [zero_add]
          linarith [hrest.2]

theorem compareObjects_num_num (x y : ℚ) :
    compareObjects (.num x) (.num y) =
      if x = y then 1 else max 0 (1 - |x - y| / max (max |x| |y|) 1) := by
  rw [compareObjects]
  by_cases hxy : x = y
  · subst hxy
    simp [jsStrictEq]
  · simp [jsStrictEq, jsTypeof, hxy]

theorem compareObjects_str_str (s t : String) :
    compareObjects (.str s) (.str t) =
      if s = t then 1 else compareStrings s t := by
  rw [compareObjects]
  by_cases hst : s = t
  · subst hst
    simp [jsStrictEq]
  · simp [jsStrictEq, jsTypeof, hst]

theorem compareObjects_arr_arr (xs ys : List Json) :
    compareObjects (.arr xs) (.arr ys) =
      if xs.length = 0 ∧ ys.length = 0 then 1
      else compareArraysSum xs ys / ((max xs.length ys.length : ℕ) : ℚ) := by
  rw [compareObjects]
  all_goals simp [jsStrictEq, jsTypeof, Json.isNull]

theorem compareObjects_obj_obj (f1 f2 : List (String × Json)) :
    compareObjects (.obj f1) (.obj f2) =
      (if ((Json.obj f1).keys ++ (Json.obj f2).keys).dedup.length = 0 then 1
       else compareFieldsSum ((Json.obj f1).keys ++ (Json.obj f2).keys).dedup
              (.obj f1) (.obj f2) /
            ((((Json.obj f1).keys ++ (Json.obj f2).keys).dedup.length : ℕ) : ℚ)) := by
  rw [compareObjects]
  all_goals simp [jsStrictEq, jsTypeof, Json.isNull]

theorem compareObjects_arr_obj (xs : List Json) (f2 : List (String × Json)) :
    compareObjects (.arr xs) (.obj f2) =
      (if ((Json.arr xs).keys ++ (Json.obj f2).keys).dedup.length = 0 then 1
       else compareFieldsSum ((Json.arr xs).keys ++ (Json.obj f2).keys).dedup
              (.arr xs) (.obj f2) /
            ((((Json.arr xs).keys ++ (Json.obj f2).keys).dedup.length : ℕ) : ℚ)) := by
  rw [compareObjects]
  all_goals simp [jsStrictEq, jsTypeof, Json.isNull]

theorem compareObjects_obj_arr (f1 : List (String × Json)) (ys : List Json) :
    compareObjects (.obj f1) (.arr ys) =
      (if ((Json.obj f1).keys ++ (Json.arr ys).keys).dedup.length = 0 then 1
       else compareFieldsSum ((Json.obj f1).keys ++ (Json.arr ys).keys).dedup
              (.obj f1) (.arr ys) /
            ((((Json.obj f1).keys ++ (Json.arr ys).keys).dedup.length : ℕ) : ℚ)) := by
  rw [compareObjects]
  all_goals simp [jsStrictEq, jsTypeof, Json.isNull]

set_option maxHeartbeats 1000000 in
theorem compareObjects_bound : ∀ e a : Json,
    0 ≤ compareObjects e a ∧ compareObjects e a ≤ 1 := by
  have main : ∀ n : ℕ, ∀ e a : Json, sizeOf e + sizeOf a = n →
      0 ≤ compareObjects e a ∧ compareObjects e a ≤ 1 := by
    intro n
    induction n using Nat.strong_induction_on with
    | _ n ih =>
      intro e a hsz
      have hB : ∀ e' a' : Json, sizeOf e' + sizeOf a' < sizeOf e + sizeOf a →
          0 ≤ compareObjects e' a' ∧ compareObjects e' a' ≤ 1 := by
        intro e' a' hlt
        exact ih (sizeOf e' + sizeOf a') (by omega) e' a' rfl
      clear hsz ih
      cases e <;> cases a <;>
        first
          | (rw [compareObjects_num_num]
             split_ifs
             · constructor <;> norm_num
             · exact numericSimilarity_bound _ _)
          | (rw [compareObjects_str_str]
             split_ifs
             · constructor <;> norm_num
             · exact compareStrings_bound _ _)
          | (rw [compareObjects_arr_arr]
             rename_i xs ys
             have hB' : ∀ e' a' : Json, sizeOf e' + sizeOf a' < sizeOf xs + sizeOf ys →
                 0 ≤ compareObjects e' a' ∧ compareObjects e' a' ≤ 1 := by
               intro e' a' h'
               refine hB e' a' ?_
               simp only [Json.arr.sizeOf_spec]
               omega
             have harr := compareArraysSum_bound (sizeOf xs + sizeOf ys) hB' xs ys le_rfl
             split_ifs with hne
             · constructor <;> norm_num
             · have hM : 0 < max xs.length ys.length := by
                 rcases not_and_or.mp hne with h | h
                 · exact lt_of_lt_of_le (Nat.pos_of_ne_zero h) (le_max_left _ _)
                 · exact lt_of_lt_of_le (Nat.pos_of_ne_zero h) (le_max_right _ _)
               have hMq : (0 : ℚ) < ((max xs.length ys.length : ℕ) : ℚ) := by
                 exact_mod_cast hM
               constructor
               · exact div_nonneg harr.1 (le_of_lt hMq)
               · rw [div_le_one hMq]
                 refine le_trans harr.2 ?_
                 exact_mod_cast le_trans (min_le_left _ _) (le_max_left _ _))
          | ((first
               | rw [compareObjects_obj_obj]
               | rw [compareObjects_arr_obj]
               | rw [compareObjects_obj_arr])
             split_ifs with hlen
             · constructor <;> norm_num
             · constructor
               · refine div_nonneg (compareFieldsSum_bound _ hB _ _ _ le_rfl).1 ?_
                 positivity
               · rw [div_le_one (by exact_mod_cast Nat.pos_of_ne_zero hlen)]
                 exact (compareFieldsSum_bound _ hB _ _ _ le_rfl).2)
          | (rw [compareObjects]
             all_goals first
               | (intro p q hp hq
                  simp at hp hq)
               | (constructor <;>
                   first
                     | (simp [jsStrictEq, jsTypeof, Json.isNull]
                        done)
                     | (simp [jsStrictEq, jsTypeof, Json.isNull]
                        split_ifs <;> norm_num)))
  intro e a
  exact main (sizeOf e + sizeOf a) e a rfl

/-- Computation rule for `calculateFailureSoftScore` when both `expected`
and `actual` are present. -/
theorem calculateFailureSoftScore_some (numParse : String → Option ℚ)
    (jsonParse : String → Option Json) (f : TestFailure) (e a : String)
    (hE : f.expected = some e) (hA : f.actual = some a) :
    calculateFailureSoftScore numParse jsonParse f =
      (if e = "" ∨ a = "" then 0
       else if jsTrim e = jsTrim a then 1
       else
         match compareNumeric numParse (jsTrim e) (jsTrim a) with
         | some numericScore => numericScore
         | none =>
             match compareJson jsonParse (jsTrim e) (jsTrim a) with
             | some jsonScore => jsonScore
             | none => compareStrings (jsTrim e) (jsTrim a)) := by
  rw [calculateFailureSoftScore, hE, hA]

/-- Every per-failure soft score lies in `[0, 1]`, whatever the number and
JSON parsing oracles return. -/
theorem calculateFailureSoftScore_bound (numParse : String → Option ℚ)
    (jsonParse : String → Option Json) (failure : TestFailure) :
    0 ≤ calculateFailureSoftScore numParse jsonParse failure ∧
    calculateFailureSoftScore numParse jsonParse failure ≤ 1 := by
  rcases hE : failure.expected with _ | e
  · constructor <;> simp [calculateFailureSoftScore, hE]
  rcases hA : failure.actual with _ | a
  · constructor <;> simp [calculateFailureSoftScore, hE, hA]
  rw [calculateFailureSoftScore_some numParse jsonParse failure e a hE hA]
  split_ifs with h0 hEq
  · norm_num
  · norm_num
  cases hN : compareNumeric numParse (jsTrim e) (jsTrim a) with
  | some s =>
      exact compareNumeric_bound numParse _ _ s hN
  | none =>
      cases hJ : compareJson jsonParse (jsTrim e) (jsTrim a) with
      | none =>
          exact compareStrings_bound _ _
      | some s =>
          rw [compareJson] at hJ
          rcases hPE : jsonParse (jsTrim e) with _ | eo <;> rw [hPE] at hJ
          · simp at hJ
          rcases hPA : jsonParse (jsTrim a) with _ | ao <;> rw [hPA] at hJ
          · simp at hJ
          have hs : compareObjects eo ao = s := by
            injection hJ
          rw [← hs]
          exact compareObjects_bound eo ao

/-- The sum of per-failure soft scores over a failure list is between 0 and
the list's length. -/
theorem failures_sum_bound (numParse : String → Option ℚ)
    (jsonParse : String → Option Json) (fs : List TestFailure) :
    0 ≤ (fs.map (calculateFailureSoftScore numParse jsonParse)).sum ∧
    (fs.map (calculateFailureSoftScore numParse jsonParse)).sum ≤
      (fs.length : ℚ) := by
  induction fs with
  | nil => simp
  | cons f fs ih =>
      simp only [List.map_cons, List.sum_cons, List.length_cons]
      have hb := calculateFailureSoftScore_bound numParse jsonParse f
      push_cast
      constructor
      · linarith [ih.1, hb.1]
      · linarith [ih.2, hb.2]

/-- C9, counterexample: the claim says an exact expected/actual match scores
exactly 1 while an empty expected or actual scores exactly 0; with
`expected = actual = ""` both clauses apply, and the code's falsy guard
`!(failure.expected && failure.actual)` returns 0, not 1 — so the
exact-match clause is false as stated. -/
theorem c9_counterexample :
    ∃ failure : TestFailure,
      failure.expected = failure.actual ∧ failure.expected = some "" ∧
      calculateFailureSoftScore (fun _ => none) (fun _ => none) failure = 0 ∧
      calculateFailureSoftScore (fun _ => none) (fun _ => none) failure ≠ 1 := by
  refine ⟨{ name := "t", file := "f",
            expected := some "", actual := some "" }, rfl, rfl, ?_, ?_⟩ <;>
    simp [calculateFailureSoftScore]

/-- C9 (amended): every per-failure soft score lies in `[0, 1]`; an exact
match of present, **non-empty** expected/actual values scores exactly 1; an
empty expected or actual scores exactly 0; the aggregate soft score is
`(passed + Σ per-failure scores) / total` whenever `total ≠ 0`, and it lies
in `[0, 1]` provided `passed + #failures ≤ total`. -/
theorem c9_soft_score (numParse : String → Option ℚ)
    (jsonParse : String → Option Json) (failure : TestFailure)
    (results : TestResults)
    (hcount : results.passed + results.failures.length ≤ results.total) :
    (0 ≤ calculateFailureSoftScore numParse jsonParse failure ∧
     calculateFailureSoftScore numParse jsonParse failure ≤ 1) ∧
    (∀ e a : String, failure.expected = some e → failure.actual = some a →
       e ≠ "" → a ≠ "" → e = a →
       calculateFailureSoftScore numParse jsonParse failure = 1) ∧
    (∀ e a : String, failure.expected = some e → failure.actual = some a →
       (e = "" ∨ a = "") →
       calculateFailureSoftScore numParse jsonParse failure = 0) ∧
    (results.total ≠ 0 →
       calculateTestResultsSoftScore numParse jsonParse results =
         ((results.passed : ℚ) +
          (results.failures.map
            (calculateFailureSoftScore numParse jsonParse)).sum) /
         (results.total : ℚ)) ∧
    (0 ≤ calculateTestResultsSoftScore numParse jsonParse results ∧
     calculateTestResultsSoftScore numParse jsonParse results ≤ 1) := by
  refine ⟨calculateFailureSoftScore_bound numParse jsonParse failure,
          ?_, ?_, ?_, ?_⟩
  · intro e a hE hA he ha heq
    rw [calculateFailureSoftScore_some numParse jsonParse failure e a hE hA]
    have h0 : ¬ (e = "" ∨ a = "") := by
      push_neg
      exact ⟨he, ha⟩
    rw [if_neg h0, heq]
    simp
  · intro e a hE hA h0
    rw [calculateFailureSoftScore_some numParse jsonParse failure e a hE hA,
        if_pos h0]
  · intro ht
    rw [calculateTestResultsSoftScore, if_neg ht]
  · rw [calculateTestResultsSoftScore]
    split_ifs with ht
    · norm_num
    have hsum := failures_sum_bound numParse jsonParse results.failures
    have htpos : (0 : ℚ) < (results.total : ℚ) := by
      exact_mod_cast Nat.pos_of_ne_zero ht
    have hpn : (0 : ℚ) ≤ (results.passed : ℚ) := Nat.cast_nonneg _
    have hc : ((results.passed : ℚ) + (results.failures.length : ℚ)) ≤
        (results.total : ℚ) := by
      exact_mod_cast hcount
    constructor
    · apply div_nonneg _ (le_of_lt htpos)
      linarith [hsum.1]
    · rw [div_le_one htpos]
      linarith [hsum.2]

/-- A concrete failing test used to instantiate `c9_soft_score`. -/
def c9fail : TestFailure :=
  { name := "adds", file := "math.test.ts",
    expected := some "abc", actual := some "abd" }

/-- A concrete test run with two passes and one failure. -/
def c9results : TestResults :=
  { framework := "bun", passed := 2, failed := 1, total := 3, duration := 1,
    failures := [c9fail] }

/-- C9, witness: `c9_soft_score` applied at a concrete run of three tests
with one failure, under oracles that parse nothing. -/
theorem c9_soft_score_witness :
    c9results.passed + c9results.failures.length ≤ c9results.total ∧
    (0 ≤ calculateTestResultsSoftScore (fun _ => none) (fun _ => none)
          c9results ∧
     calculateTestResultsSoftScore (fun _ => none) (fun _ => none)
          c9results ≤ 1) :=
  ⟨by decide,
   (c9_soft_score (fun _ => none) (fun _ => none) c9fail c9results
      (by decide)).2.2.2.2⟩

end Finsliparn
